import Mathlib

/-!
Verification development for the FindRain repository.

Shallow embedding of the parts of the source the claims are about:
  * api/data/sources/base.py      (data source health tracking)
  * api/data/sources/aggregator.py (failover and interval aggregation)
  * api/utils/validators.py       (date parsing and range validation; the
    file in the tree is truncated mid-line, the complete text of the same
    functions is embedded verbatim in api/utils/decorators.py)
  * mcp/validators.py             (tool parameter validation)
  * agents/orchestrator.py        (message routing)
  * api/utils/greeks.py           (Black-Scholes Greeks engine)

Python floats are modelled as rationals where only field-wise arithmetic and
comparisons occur, and as real numbers for the transcendental Black-Scholes
formulas.  Python exceptions are modelled with Except / Option.
-/

namespace FindRain

/-! ## api/data/sources/base.py -/

/-- DataSourceStatus enum. -/
inductive DataSourceStatus where
  | healthy
  | degraded
  | unhealthy
  deriving DecidableEq, Repr

/-- Outcome of one call to a source method: the call either raises an
exception or returns an optional payload (None modelled as Option.none). -/
inductive CallOutcome (α : Type) where
  | raises
  | returns (r : Option α)
  deriving DecidableEq, Repr

/-- The mutable attributes of BaseDataSource that health tracking touches,
plus the behaviour of its get_quote for the call under analysis. -/
structure DataSource (α : Type) where
  name : String
  priority : Int
  status : DataSourceStatus
  error_count : Nat
  success_count : Nat
  /-- outcome of get_quote(symbol) for this source in the modelled call -/
  quote : CallOutcome α
  deriving DecidableEq, Repr

/-- BaseDataSource.health_check.  The canary get_quote("AAPL") outcome is
passed explicitly.  On a truthy result: status HEALTHY, error counter reset.
On a falsy result: status DEGRADED.  On an exception: error counter
incremented, then UNHEALTHY at three or more errors, DEGRADED otherwise. -/
def health_check (s : DataSource α) (canary : CallOutcome α) : DataSource α :=
  match canary with
  | .returns (some _) => { s with status := .healthy, error_count := 0 }
  | .returns none => { s with status := .degraded }
  | .raises =>
      let ec := s.error_count + 1
      if 3 ≤ ec then { s with error_count := ec, status := .unhealthy }
      else { s with error_count := ec, status := .degraded }

/-- BaseDataSource.record_success. -/
def record_success (s : DataSource α) : DataSource α :=
  let sc := s.success_count + 1
  if 10 < sc ∧ s.status ≠ .healthy then
    { s with success_count := sc, status := .healthy, error_count := 0 }
  else
    { s with success_count := sc }

/-- BaseDataSource.record_error. -/
def record_error (s : DataSource α) : DataSource α :=
  let ec := s.error_count + 1
  if 3 ≤ ec then { s with error_count := ec, status := .unhealthy }
  else if 1 ≤ ec then { s with error_count := ec, status := .degraded }
  else { s with error_count := ec }

/-- A sample quantity type for concrete runs (a quote is a price map; only
the price field matters to the claims). -/
abbrev Quote := ℚ

/-! ## api/data/sources/aggregator.py -/

/-- Ascending priority order on sources (lower priority value = tried first). -/
def priorityLe (a b : DataSource α) : Prop := a.priority ≤ b.priority

instance : DecidableRel (@priorityLe α) := fun a b => Int.decLe _ _

instance : IsTotal (DataSource α) priorityLe := ⟨fun a b => Int.le_total _ _⟩

instance : IsTrans (DataSource α) priorityLe := ⟨fun _ _ _ => Int.le_trans⟩

/-- DataAggregator._initialize_sources sorts the configured sources by
priority (Python list.sort, a stable sort on the priority key). -/
def initialize_sources (cfg : List (DataSource α)) : List (DataSource α) :=
  cfg.insertionSort priorityLe

/-- DataAggregator._get_healthy_sources: the sources whose status is not
UNHEALTHY, in stored (priority) order. -/
def get_healthy_sources (sources : List (DataSource α)) : List (DataSource α) :=
  sources.filter (fun s => s.status ≠ .unhealthy)

/-- The failover loop of DataAggregator.get_quote.  The Python loop runs over
the alias list _get_healthy_sources(); sources whose status is UNHEALTHY are
therefore never attempted.  An attempted source that raises gets
record_error; a non-empty result returns immediately; an empty result moves
on to the next source.  Returns (result, updated sources, names of attempted
sources in order). -/
def get_quote_loop : List (DataSource α) → Option α × List (DataSource α) × List String
  | [] => (none, [], [])
  | s :: rest =>
      if s.status = .unhealthy then
        -- filtered out by _get_healthy_sources: not attempted, not mutated
        let (r, rest', tr) := get_quote_loop rest
        (r, s :: rest', tr)
      else
        match s.quote with
        | .raises =>
            let (r, rest', tr) := get_quote_loop rest
            (r, record_error s :: rest', s.name :: tr)
        | .returns none =>
            let (r, rest', tr) := get_quote_loop rest
            (r, s :: rest', s.name :: tr)
        | .returns (some v) => (some v, s :: rest, [s.name])

/-- DataAggregator.get_quote.  The cache is modelled as the optional value
stored under quote:{symbol}.  Returns (result, cache after the call, updated
sources, attempted source names). -/
def get_quote (use_cache : Bool) (cache : Option α) (sources : List (DataSource α)) :
    Option α × Option α × List (DataSource α) × List String :=
  match use_cache, cache with
  | true, some v => (some v, cache, sources, [])
  | _, _ =>
      let (r, sources', tr) := get_quote_loop sources
      match r with
      | some v => (some v, some v, sources', tr)
      | none => (none, cache, sources', tr)

/-! Specification-side functions for the failover claims, written from the
words of the spec rather than from the loop. -/

/-- A source counts as a success for one get_quote attempt when its handler
returns a non-empty result. -/
def isQuoteSuccess (s : DataSource α) : Bool :=
  match s.quote with
  | .returns (some _) => true
  | _ => false

/-- The first non-empty result delivered by a list of sources. -/
def firstResult : List (DataSource α) → Option α
  | [] => none
  | s :: rest =>
      match s.quote with
      | .returns (some v) => some v
      | _ => firstResult rest

/-- The sources attempted in order: every source up to and including the
first one with a non-empty result. -/
def attemptedSources : List (DataSource α) → List (DataSource α)
  | [] => []
  | s :: rest =>
      if isQuoteSuccess s then [s] else s :: attemptedSources rest

/-- A source is attempted by the failover loop precisely when it is not
UNHEALTHY and no earlier source both was attemptable and produced a
non-empty result.  Indexed spec-side characterisation (the first conjunct
reads: the source at position i, if any, is not UNHEALTHY). -/
def attemptedAt (sources : List (DataSource α)) (i : Nat) : Prop :=
  (∀ s ∈ (sources.drop i).take 1, s.status ≠ .unhealthy) ∧
    ∀ s ∈ sources.take i, ¬(s.status ≠ .unhealthy ∧ isQuoteSuccess s = true)

instance (sources : List (DataSource α)) (i : Nat) :
    Decidable (attemptedAt sources i) := by
  unfold attemptedAt; infer_instance

/-! ## Timestamps and interval aggregation (DataAggregator._aggregate_data)

Python datetime values are modelled structurally.  The source stores bar
timestamps as isoformat strings and parses them back with
datetime.fromisoformat, a lossless round trip, so bars here carry the
structured timestamp directly. -/

/-- A Python datetime (naive, microsecond precision). -/
@[ext] structure DateTime where
  year : Nat
  month : Nat
  day : Nat
  hour : Nat
  minute : Nat
  second : Nat
  microsecond : Nat
  deriving DecidableEq, Repr

/-- Mixed-radix key.  On normalised datetimes (month 1-12, day 1-31,
hour 0-23, minute/second 0-59, microsecond 0-999999 - every value the
repository constructs is normalised) the key order is exactly the
chronological, field-lexicographic order Python datetime comparison uses. -/
def dtKey (t : DateTime) : Nat :=
  (((((t.year * 13 + t.month) * 32 + t.day) * 25 + t.hour) * 61 + t.minute)
      * 61 + t.second) * 1000000 + t.microsecond

/-- Chronological order on (normalised) datetimes. -/
def dtLe (a b : DateTime) : Prop := dtKey a ≤ dtKey b

instance : DecidableRel dtLe := fun a b => Nat.decLe _ _

instance : IsTotal DateTime dtLe := ⟨fun a b => Nat.le_total _ _⟩

instance : IsTrans DateTime dtLe := ⟨fun _ _ _ => Nat.le_trans⟩

/-- One OHLCV bar as handled by _aggregate_data (the dict keys timestamp,
open, high, low, close, volume, symbol, source; open is a Lean keyword, so
the field is named open_). -/
@[ext] structure Bar where
  timestamp : DateTime
  open_ : ℚ
  high : ℚ
  low : ℚ
  close : ℚ
  volume : ℚ
  symbol : String
  source : String
  deriving DecidableEq, Repr

/-- interval_minutes.get(target_interval, 1440). -/
def interval_minutes (target : String) : Nat :=
  if target = "1m" then 1
  else if target = "5m" then 5
  else if target = "15m" then 15
  else if target = "30m" then 30
  else if target = "1h" then 60
  else if target = "1d" then 1440
  else 1440

/-- timestamp.replace(minute=(timestamp.minute // target_minutes) *
target_minutes, second=0, microsecond=0): the bucket key of a bar. -/
def floorToInterval (tm : Nat) (t : DateTime) : DateTime :=
  { t with minute := t.minute / tm * tm, second := 0, microsecond := 0 }

/-- max over a nonempty list, as max(generator) in Python. -/
def maxList (x : ℚ) (xs : List ℚ) : ℚ := xs.foldl max x

/-- min over a nonempty list. -/
def minList (x : ℚ) (xs : List ℚ) : ℚ := xs.foldl min x

/-- sum(generator) in Python: left fold of addition starting at 0. -/
def sumList (xs : List ℚ) : ℚ := xs.foldl (· + ·) 0

/-- The aggregated point built from one non-empty bucket q :: qs:
open = first, high = max, low = min, close = last, volume = sum,
symbol/source from the first bar. -/
def aggPoint (period : DateTime) (q : Bar) (qs : List Bar) : Bar :=
  { timestamp := period
    open_ := q.open_
    high := maxList q.high (qs.map (fun p => p.high))
    low := minList q.low (qs.map (fun p => p.low))
    close := (qs.getLastD q).close
    volume := sumList ((q :: qs).map (fun p => p.volume))
    symbol := q.symbol
    source := q.source }

/-- The bucket of a period: the bars whose floored timestamp is that
period, in input order (Python groups them into a dict of lists). -/
def bucketOf (data : List Bar) (tm : Nat) (period : DateTime) : List Bar :=
  data.filter (fun p => floorToInterval tm p.timestamp = period)

/-- The body of the aggregation loop for one period: skip an empty bucket
(`if not points: continue`), otherwise build the aggregated point. -/
def bucketAgg (data : List Bar) (tm : Nat) (period : DateTime) : Option Bar :=
  match bucketOf data tm period with
  | [] => none
  | q :: qs => some (aggPoint period q qs)

/-- DataAggregator._aggregate_data.  Python groups the bars into an
insertion-ordered dict keyed by floored timestamp and then iterates
sorted(aggregated.items()); because the items are sorted by key, only the
set of keys matters, so the dedup order below is irrelevant. -/
def aggregate_data (data : List Bar) (target : String) : List Bar :=
  if data.isEmpty then data
  else
    let tm := interval_minutes target
    let keys := (data.map (fun p => floorToInterval tm p.timestamp)).dedup
    let sortedKeys := keys.insertionSort dtLe
    sortedKeys.filterMap (bucketAgg data tm)

/-! ## api/utils/validators.py - validate_date and validate_date_range

validators.py in the tree breaks off mid-line inside validate_date_range;
the complete text of the same two functions is embedded verbatim in
api/utils/decorators.py (lines 83-122 of its generator output), which is the
version modelled here.

validate_date parses with datetime.strptime against five formats in order.
CPython strptime compiles each directive to a regex fragment
(%Y = four digits, %m = 1[0-2]|0[1-9]|[1-9], %d = 3[01]|[12]d|0[1-9]|[1-9],
%H = 2[0-3]|[0-1]d|d, %M = [0-5]d|d, %S = 6[0-1]|[0-5]d|d), matches the
pattern against a prefix of the input (first match in backtracking order),
raises ValueError unless the match consumed the whole string, and finally
constructs the datetime, which itself raises ValueError for an invalid
calendar day or an out-of-range component. -/

/-- The datetime field a strptime directive populates. -/
inductive TimeField where
  | year | month | day | hour | minute | second
  deriving DecidableEq, Repr

/-- One token of a compiled strptime format: a literal character or a
field directive. -/
inductive FmtTok where
  | lit (c : Char)
  | fld (f : TimeField)
  deriving DecidableEq, Repr

/-- Numeric value of a digit character. -/
def digitVal (c : Char) : Nat := c.toNat - 48

/-- Alternatives of the %Y fragment: exactly four digits. -/
def altsYear : List Char → List (Nat × List Char)
  | a :: b :: c :: d :: rest =>
      if a.isDigit ∧ b.isDigit ∧ c.isDigit ∧ d.isDigit then
        [(((digitVal a * 10 + digitVal b) * 10 + digitVal c) * 10 + digitVal d,
          rest)]
      else []
  | _ => []

/-- Alternatives of the %m fragment, in regex alternation order. -/
def altsMonth : List Char → List (Nat × List Char)
  | a :: b :: rest =>
      (if a = '1' ∧ '0' ≤ b ∧ b ≤ '2' then [(10 + digitVal b, rest)] else []) ++
      (if a = '0' ∧ '1' ≤ b ∧ b ≤ '9' then [(digitVal b, rest)] else []) ++
      (if '1' ≤ a ∧ a ≤ '9' then [(digitVal a, b :: rest)] else [])
  | [a] => if '1' ≤ a ∧ a ≤ '9' then [(digitVal a, [])] else []
  | [] => []

/-- Alternatives of the %d fragment, in regex alternation order. -/
def altsDay : List Char → List (Nat × List Char)
  | a :: b :: rest =>
      (if a = '3' ∧ (b = '0' ∨ b = '1') then [(30 + digitVal b, rest)] else []) ++
      (if ('1' ≤ a ∧ a ≤ '2') ∧ b.isDigit then
        [(10 * digitVal a + digitVal b, rest)] else []) ++
      (if a = '0' ∧ '1' ≤ b ∧ b ≤ '9' then [(digitVal b, rest)] else []) ++
      (if '1' ≤ a ∧ a ≤ '9' then [(digitVal a, b :: rest)] else [])
  | [a] => if '1' ≤ a ∧ a ≤ '9' then [(digitVal a, [])] else []
  | [] => []

/-- Alternatives of the %H fragment, in regex alternation order. -/
def altsHour : List Char → List (Nat × List Char)
  | a :: b :: rest =>
      (if a = '2' ∧ '0' ≤ b ∧ b ≤ '3' then [(20 + digitVal b, rest)] else []) ++
      (if (a = '0' ∨ a = '1') ∧ b.isDigit then
        [(10 * digitVal a + digitVal b, rest)] else []) ++
      (if a.isDigit then [(digitVal a, b :: rest)] else [])
  | [a] => if a.isDigit then [(digitVal a, [])] else []
  | [] => []

/-- Alternatives of the %M fragment, in regex alternation order. -/
def altsMinute : List Char → List (Nat × List Char)
  | a :: b :: rest =>
      (if '0' ≤ a ∧ a ≤ '5' ∧ b.isDigit then
        [(10 * digitVal a + digitVal b, rest)] else []) ++
      (if a.isDigit then [(digitVal a, b :: rest)] else [])
  | [a] => if a.isDigit then [(digitVal a, [])] else []
  | [] => []

/-- Alternatives of the %S fragment (leap seconds 60 and 61 are matched by
the regex and rejected later by the datetime constructor). -/
def altsSecond : List Char → List (Nat × List Char)
  | a :: b :: rest =>
      (if a = '6' ∧ (b = '0' ∨ b = '1') then [(60 + digitVal b, rest)] else []) ++
      (if '0' ≤ a ∧ a ≤ '5' ∧ b.isDigit then
        [(10 * digitVal a + digitVal b, rest)] else []) ++
      (if a.isDigit then [(digitVal a, b :: rest)] else [])
  | [a] => if a.isDigit then [(digitVal a, [])] else []
  | [] => []

/-- Alternatives of one token on the given input, in regex order. -/
def tokAlts : FmtTok → List Char → List (Nat × List Char)
  | .lit c, x :: rest => if x = c then [(0, rest)] else []
  | .lit _, [] => []
  | .fld .year, cs => altsYear cs
  | .fld .month, cs => altsMonth cs
  | .fld .day, cs => altsDay cs
  | .fld .hour, cs => altsHour cs
  | .fld .minute, cs => altsMinute cs
  | .fld .second, cs => altsSecond cs

/-- The partially assembled time tuple; strptime defaults are year 1900,
month 1, day 1, hour/minute/second 0. -/
structure ParseAcc where
  y : Nat := 1900
  m : Nat := 1
  d : Nat := 1
  h : Nat := 0
  mi : Nat := 0
  s : Nat := 0
  deriving DecidableEq, Repr

/-- Store a parsed field value. -/
def setField : TimeField → Nat → ParseAcc → ParseAcc
  | .year, v, a => { a with y := v }
  | .month, v, a => { a with m := v }
  | .day, v, a => { a with d := v }
  | .hour, v, a => { a with h := v }
  | .minute, v, a => { a with mi := v }
  | .second, v, a => { a with s := v }

/-- All pattern completions in depth-first (regex backtracking) order,
each with the still-unconsumed input. -/
def runToks : List FmtTok → ParseAcc → List Char → List (ParseAcc × List Char)
  | [], acc, cs => [(acc, cs)]
  | t :: ts, acc, cs =>
      (tokAlts t cs).flatMap (fun vr =>
        match t with
        | .lit _ => runToks ts acc vr.2
        | .fld f => runToks ts (setField f vr.1 acc) vr.2)

/-- Gregorian leap year. -/
def isLeapYear (y : Nat) : Bool :=
  y % 4 = 0 ∧ (y % 100 ≠ 0 ∨ y % 400 = 0)

/-- Days in a month of a given year (0 for an invalid month number). -/
def days_in_month (y m : Nat) : Nat :=
  if m = 1 then 31
  else if m = 2 then (if isLeapYear y then 29 else 28)
  else if m = 3 then 31
  else if m = 4 then 30
  else if m = 5 then 31
  else if m = 6 then 30
  else if m = 7 then 31
  else if m = 8 then 31
  else if m = 9 then 30
  else if m = 10 then 31
  else if m = 11 then 30
  else if m = 12 then 31
  else 0

/-- The datetime constructor: accepts exactly the normalised tuples
(MINYEAR 1 to MAXYEAR 9999, valid calendar day, 24h clock), raising
ValueError otherwise. -/
def mkDatetime (a : ParseAcc) : Option DateTime :=
  if 1 ≤ a.y ∧ a.y ≤ 9999 ∧ 1 ≤ a.m ∧ a.m ≤ 12 ∧
      1 ≤ a.d ∧ a.d ≤ days_in_month a.y a.m ∧
      a.h ≤ 23 ∧ a.mi ≤ 59 ∧ a.s ≤ 59 then
    some ⟨a.y, a.m, a.d, a.h, a.mi, a.s, 0⟩
  else none

/-- datetime.strptime(s, fmt): first regex completion, full-consumption
check, then construction. -/
def strptime (toks : List FmtTok) (s : String) : Option DateTime :=
  match (runToks toks {} s.toList).head? with
  | none => none
  | some (acc, rest) => if rest = [] then mkDatetime acc else none

/-- Compiled '%Y-%m-%d'. -/
def fmtYmd : List FmtTok :=
  [.fld .year, .lit '-', .fld .month, .lit '-', .fld .day]

/-- Compiled '%Y-%m-%d %H:%M:%S'. -/
def fmtYmdHms : List FmtTok :=
  fmtYmd ++ [.lit ' ', .fld .hour, .lit ':', .fld .minute, .lit ':', .fld .second]

/-- Compiled '%Y/%m/%d'. -/
def fmtYmdSlash : List FmtTok :=
  [.fld .year, .lit '/', .fld .month, .lit '/', .fld .day]

/-- Compiled '%d/%m/%Y'. -/
def fmtDmySlash : List FmtTok :=
  [.fld .day, .lit '/', .fld .month, .lit '/', .fld .year]

/-- Compiled '%d-%m-%Y'. -/
def fmtDmyDash : List FmtTok :=
  [.fld .day, .lit '-', .fld .month, .lit '-', .fld .year]

/-- The five formats validate_date tries, in order. -/
def dateFormats : List (List FmtTok) :=
  [fmtYmd, fmtYmdHms, fmtYmdSlash, fmtDmySlash, fmtDmyDash]

instance {ε α : Type _} [DecidableEq ε] [DecidableEq α] : DecidableEq (Except ε α)
  | .error x, .error y =>
      if h : x = y then .isTrue (by rw [h]) else .isFalse (by simp [h])
  | .error _, .ok _ => .isFalse (by simp)
  | .ok _, .error _ => .isFalse (by simp)
  | .ok x, .ok y =>
      if h : x = y then .isTrue (by rw [h]) else .isFalse (by simp [h])

/-- The argument of validate_date: an already-parsed datetime or a string. -/
inductive DateInput where
  | dt (t : DateTime)
  | str (s : String)
  deriving DecidableEq, Repr

/-- validate_date: a datetime is returned unchanged; a string is parsed by
the first matching format; otherwise ValueError. -/
def validate_date : DateInput → Except String DateTime
  | .dt t => .ok t
  | .str s =>
      match dateFormats.findSome? (fun f => strptime f s) with
      | some t => .ok t
      | none => .error "Invalid date format"

/-- Strict chronological order on (normalised) datetimes, Python
datetime's less-than. -/
def dtLt (a b : DateTime) : Prop := dtKey a < dtKey b

instance : DecidableRel dtLt := fun a b => Nat.decLt _ _

/-- Days since 0000-12-31 of a Gregorian date (proleptic, year ≥ 1). -/
def daysBeforeMonth (y m : Nat) : Nat :=
  (List.range (m - 1)).foldl (fun acc i => acc + days_in_month y (i + 1)) 0

/-- Rata die day number of a calendar date. -/
def rataDie (y m d : Nat) : Int :=
  365 * ((y : Int) - 1) + ((y : Int) - 1) / 4 - ((y : Int) - 1) / 100 +
    ((y : Int) - 1) / 400 + daysBeforeMonth y m + d

/-- Microseconds on the timeline; differences of these give timedeltas. -/
def toMicros (t : DateTime) : Int :=
  ((rataDie t.year t.month t.day * 86400 +
      t.hour * 3600 + t.minute * 60 + t.second) * 1000000) + t.microsecond

/-- (end - start).days: the day component of a Python timedelta is the
floor of the difference in days. -/
def timedeltaDays (s e : DateTime) : Int :=
  (toMicros e - toMicros s).fdiv 86400000000

/-- validate_date_range: parse both ends with validate_date, reject
start > end, reject a span of more than 365*5 days. -/
def validate_date_range (start_date end_date : DateInput) :
    Except String (DateTime × DateTime) :=
  match validate_date start_date with
  | .error e => .error e
  | .ok start =>
      match validate_date end_date with
      | .error e => .error e
      | .ok stop =>
          if dtLt stop start then
            .error "Start date must be before end date"
          else if (365 * 5 : Int) < timedeltaDays start stop then
            .error "Date range cannot exceed 1825 days."
          else
            .ok (start, stop)

/-! ## mcp/validators.py - ParameterValidator.validate_parameters

Python values that appear in tool parameters are modelled by PValue
(None, str, int, float, datetime).  float is exact here (ℚ); the claims
only exercise comparisons and literal arithmetic. -/

inductive PValue where
  | none
  | str (s : String)
  | int (n : Int)
  | float (q : ℚ)
  | date (t : DateTime)
  deriving DecidableEq, Repr

/-- Python ==, as used by the `in choices` membership test: numbers compare
across int/float, everything else within its own type. -/
def pyEq : PValue → PValue → Bool
  | .none, .none => true
  | .str a, .str b => a = b
  | .int a, .int b => a = b
  | .float a, .float b => a = b
  | .int a, .float b => (a : ℚ) = b
  | .float a, .int b => a = (b : ℚ)
  | .date a, .date b => a = b
  | _, _ => false

/-- The declared type of a ToolParameter (str, int, float, datetime, or any
other type, for which the code has no coercion branch). -/
inductive PType where
  | tstr | tint | tfloat | tdate | tother
  deriving DecidableEq, Repr

/-- mcp/protocol.py ToolParameter (the description field plays no role in
validation and is omitted). -/
structure ToolParameter where
  name : String
  type : PType
  required : Bool := true
  default : PValue := .none
  choices : Option (List PValue) := Option.none
  min_value : Option ℚ := Option.none
  max_value : Option ℚ := Option.none
  deriving DecidableEq, Repr

/-- params.get(name, default): dict lookup with a fallback. -/
def pGet (params : List (String × PValue)) (name : String) (dflt : PValue) :
    PValue :=
  match params.lookup name with
  | some v => v
  | Option.none => dflt

/-- dict assignment validated[name] = value: update in place or append. -/
def dictSet (d : List (String × PValue)) (k : String) (v : PValue) :
    List (String × PValue) :=
  match d with
  | [] => [(k, v)]
  | (k', v') :: rest =>
      if k' = k then (k, v) :: rest else (k', v') :: dictSet rest k v

/-- Strip leading and trailing whitespace (Python int()/float() accept it). -/
def trimWs (cs : List Char) : List Char :=
  ((cs.dropWhile Char.isWhitespace).reverse.dropWhile Char.isWhitespace).reverse

/-- A non-empty all-digit string as a number. -/
def natOfDigits (cs : List Char) : Option Nat :=
  if cs ≠ [] ∧ cs.all Char.isDigit then
    some (cs.foldl (fun a c => a * 10 + digitVal c) 0)
  else Option.none

/-- int(s) on a string: optional sign and digits (digit-group underscores
are not modelled; no catalogue value uses them). -/
def parseIntPy (s : String) : Option Int :=
  match trimWs s.toList with
  | '+' :: ds => (natOfDigits ds).map (fun n => (n : Int))
  | '-' :: ds => (natOfDigits ds).map (fun n => -(n : Int))
  | ds => (natOfDigits ds).map (fun n => (n : Int))

/-- Python int() truncates a float toward zero. -/
def truncQ (q : ℚ) : Int := if 0 ≤ q then ⌊q⌋ else ⌈q⌉

/-- int(value): ints unchanged, floats truncated, strings parsed; None and
datetime raise TypeError. -/
def coerceInt : PValue → Option Int
  | .int n => some n
  | .float q => some (truncQ q)
  | .str s => parseIntPy s
  | _ => Option.none

/-- float(s) on a string: optional sign, digits with an optional fractional
part (exponent forms are not modelled; no catalogue value uses them). -/
def parseFloatPy (s : String) : Option ℚ :=
  match trimWs s.toList with
  | '+' :: ds => parseFloatDigits ds
  | '-' :: ds => (parseFloatDigits ds).map (fun q => -q)
  | ds => parseFloatDigits ds
where
  parseFloatDigits (ds : List Char) : Option ℚ :=
    let ip := ds.takeWhile Char.isDigit
    let rest := ds.dropWhile Char.isDigit
    match rest with
    | [] =>
        if ip ≠ [] then
          some ((ip.foldl (fun a c => a * 10 + digitVal c) 0 : Nat) : ℚ)
        else Option.none
    | '.' :: fs =>
        let fp := fs.takeWhile Char.isDigit
        if fs.dropWhile Char.isDigit = [] ∧ (ip ≠ [] ∨ fp ≠ []) then
          some (((ip.foldl (fun a c => a * 10 + digitVal c) 0 : Nat) : ℚ) +
            ((fp.foldl (fun a c => a * 10 + digitVal c) 0 : Nat) : ℚ) /
              ((10 : ℚ) ^ fp.length))
        else Option.none
    | _ => Option.none

/-- float(value): floats unchanged, ints widened, strings parsed. -/
def coerceFloat : PValue → Option ℚ
  | .float q => some q
  | .int n => some (n : ℚ)
  | .str s => parseFloatPy s
  | _ => Option.none

/-- ParameterValidator.validate_number: coerce to float, then check the
optional bounds. -/
def validate_number (v : PValue) (min_val max_val : Option ℚ) :
    Except String ℚ :=
  match coerceFloat v with
  | Option.none => .error "Value must be numeric"
  | some q =>
      match min_val with
      | some m =>
          if q < m then .error "Value is below minimum"
          else
            match max_val with
            | some M => if M < q then .error "Value is above maximum" else .ok q
            | Option.none => .ok q
      | Option.none =>
          match max_val with
          | some M => if M < q then .error "Value is above maximum" else .ok q
          | Option.none => .ok q

/-- ParameterValidator.validate_date (mcp/validators.py): a datetime is
returned unchanged, a string is parsed against the five formats, anything
else raises. -/
def validate_date_mcp : PValue → Except String DateTime
  | .date t => .ok t
  | .str s =>
      match dateFormats.findSome? (fun f => strptime f s) with
      | some t => .ok t
      | Option.none => .error "Invalid date format"
  | _ => .error "Date must be string or datetime"

/-- The per-type coercion block of validate_parameters. -/
def coerceFor (p : ToolParameter) (v : PValue) : Except String PValue :=
  match p.type with
  | .tstr =>
      match v with
      | .str _ => .ok v
      | _ => .error ("Parameter " ++ p.name ++ " must be string")
  | .tint =>
      match coerceInt v with
      | some n => .ok (.int n)
      | Option.none => .error ("Parameter " ++ p.name ++ " must be integer")
  | .tfloat =>
      match validate_number v p.min_value p.max_value with
      | .ok q => .ok (.float q)
      | .error e => .error e
  | .tdate =>
      match validate_date_mcp v with
      | .ok t => .ok (.date t)
      | .error e => .error e
  | .tother => .ok v

/-- Type coercion followed by the choices check (`if param_def.choices and
param_value not in param_def.choices`); applied only to non-None values. -/
def checkValue (p : ToolParameter) (v : PValue) : Except String PValue :=
  match coerceFor p v with
  | .error e => .error e
  | .ok v' =>
      match p.choices with
      | some cs =>
          if cs ≠ [] ∧ cs.any (fun c => pyEq c v') = false then
            .error ("Parameter " ++ p.name ++ " must be one of choices")
          else .ok v'
      | Option.none => .ok v'

/-- The loop of ParameterValidator.validate_parameters, threading the
validated dict. -/
def validateParamsGo (params : List (String × PValue)) :
    List ToolParameter → List (String × PValue) →
      Except String (List (String × PValue))
  | [], validated => .ok validated
  | p :: rest, validated =>
      let param_value := pGet params p.name p.default
      if p.required = true ∧ param_value = .none then
        .error ("Required parameter missing: " ++ p.name)
      else
        match (if param_value = .none then .ok param_value
               else checkValue p param_value) with
        | .error e => .error e
        | .ok v => validateParamsGo params rest (dictSet validated p.name v)

/-- ParameterValidator.validate_parameters. -/
def validate_parameters (defn : List ToolParameter)
    (params : List (String × PValue)) :
    Except String (List (String × PValue)) :=
  validateParamsGo params defn []

/-- True on the error (raising) outcome. -/
def isError : Except ε α → Bool
  | .error _ => true
  | .ok _ => false

/-! ## api/utils/greeks.py - the Black-Scholes Greeks engine

Modelled over the real numbers (the idealisation of the float code):
scipy's norm.cdf/norm.pdf become the standard normal CDF (an integral of
the density) and density; round(x, 6) becomes rounding to the nearest
multiple of 10⁻⁶ (Python breaks exact ties to even, Mathlib's round
upward; no claim depends on an exact tie). -/

/-- greeks.py OptionParameters. -/
structure OptionParameters where
  spot_price : ℝ
  strike_price : ℝ
  time_to_expiry : ℝ
  volatility : ℝ
  risk_free_rate : ℝ
  dividend_yield : ℝ := 0
  option_type : String := "call"

/-- greeks.py Greeks container: first-order values plus optional
second-order values, all None until computed. -/
structure Greeks where
  price : ℝ
  delta : ℝ
  gamma : ℝ
  theta : ℝ
  vega : ℝ
  rho : ℝ
  vanna : Option ℝ := Option.none
  charm : Option ℝ := Option.none
  vomma : Option ℝ := Option.none
  veta : Option ℝ := Option.none
  speed : Option ℝ := Option.none
  zomma : Option ℝ := Option.none
  color : Option ℝ := Option.none
  ultima : Option ℝ := Option.none
  lambda_ : Option ℝ := Option.none
  dual_delta : Option ℝ := Option.none
  dual_gamma : Option ℝ := Option.none

section GreeksEngine

open Real MeasureTheory Classical in
/-- The standard normal density (scipy norm.pdf). -/
noncomputable def normPdf (x : ℝ) : ℝ :=
  (Real.sqrt (2 * Real.pi))⁻¹ * Real.exp (-(x ^ 2) / 2)

open Real MeasureTheory in
/-- The standard normal CDF (scipy norm.cdf). -/
noncomputable def normCdf (x : ℝ) : ℝ := ∫ t in Set.Iic x, normPdf t

/-- round(x, 6) with self.precision = 6. -/
noncomputable def round6 (x : ℝ) : ℝ := (round (x * 1000000) : ℤ) / 1000000

/-- The d1 term of the Black-Scholes formulas, as computed in
_calculate_analytical_greeks and _black_scholes_price. -/
noncomputable def d1 (p : OptionParameters) : ℝ :=
  (Real.log (p.spot_price / p.strike_price) +
      (p.risk_free_rate - p.dividend_yield + 0.5 * p.volatility ^ 2) *
        p.time_to_expiry) /
    (p.volatility * Real.sqrt p.time_to_expiry)

/-- The d2 term: d1 - sigma * sqrt(T). -/
noncomputable def d2 (p : OptionParameters) : ℝ :=
  d1 p - p.volatility * Real.sqrt p.time_to_expiry

open Classical in
/-- OptionParameters.validate. -/
noncomputable def OptionParameters.validE (p : OptionParameters) :
    Except String Unit :=
  if p.spot_price ≤ 0 then .error "Spot price must be positive"
  else if p.strike_price ≤ 0 then .error "Strike price must be positive"
  else if p.time_to_expiry < 0 then .error "Time to expiry cannot be negative"
  else if p.volatility < 0 then .error "Volatility cannot be negative"
  else if p.option_type ≠ "call" ∧ p.option_type ≠ "put" then
    .error "Option type must be call or put"
  else .ok ()

open Classical in
/-- GreeksCalculator._calculate_expiry_greeks. -/
noncomputable def calculate_expiry_greeks (p : OptionParameters) : Greeks :=
  let S := p.spot_price
  let K := p.strike_price
  if p.option_type = "call" then
    { price := max (S - K) 0
      delta := if S > K then 1.0 else 0.0
      gamma := 0.0, theta := 0.0, vega := 0.0, rho := 0.0
      lambda_ := some 0.0 }
  else
    { price := max (K - S) 0
      delta := if S < K then -1.0 else 0.0
      gamma := 0.0, theta := 0.0, vega := 0.0, rho := 0.0
      lambda_ := some 0.0 }

open Classical in
/-- GreeksCalculator._calculate_zero_vol_greeks. -/
noncomputable def calculate_zero_vol_greeks (p : OptionParameters) : Greeks :=
  let S := p.spot_price
  let K := p.strike_price
  let T := p.time_to_expiry
  let r := p.risk_free_rate
  let q := p.dividend_yield
  let forward := S * Real.exp ((r - q) * T)
  let discount := Real.exp (-r * T)
  let pdr : ℝ × ℝ × ℝ :=
    if p.option_type = "call" then
      if forward > K then
        ((forward - K) * discount, Real.exp (-q * T),
          -T * ((forward - K) * discount) / 100)
      else (0, 0, 0)
    else
      if forward < K then
        ((K - forward) * discount, -Real.exp (-q * T),
          T * ((K - forward) * discount) / 100)
      else (0, 0, 0)
  { price := pdr.1
    delta := pdr.2.1
    gamma := 0.0
    theta := if pdr.1 > 0 then -r * pdr.1 / 365 else 0.0
    vega := 0.0
    rho := pdr.2.2
    lambda_ := some (if pdr.1 > 0 then pdr.2.1 * S / pdr.1 else 0.0) }

open Classical in
/-- GreeksCalculator._calculate_analytical_greeks. -/
noncomputable def calculate_analytical_greeks (p : OptionParameters) : Greeks :=
  let S := p.spot_price
  let K := p.strike_price
  let T := p.time_to_expiry
  let r := p.risk_free_rate
  let q := p.dividend_yield
  let sigma := p.volatility
  if T = 0 then calculate_expiry_greeks p
  else if sigma = 0 then calculate_zero_vol_greeks p
  else
    let d1 := d1 p
    let d2 := d2 p
    let exp_qT := Real.exp (-q * T)
    let exp_rT := Real.exp (-r * T)
    let sqrt_T := Real.sqrt T
    let price :=
      if p.option_type = "call" then
        S * exp_qT * normCdf d1 - K * exp_rT * normCdf d2
      else K * exp_rT * normCdf (-d2) - S * exp_qT * normCdf (-d1)
    let delta :=
      if p.option_type = "call" then exp_qT * normCdf d1
      else -exp_qT * normCdf (-d1)
    let theta_base :=
      if p.option_type = "call" then
        -S * normPdf d1 * sigma * exp_qT / (2 * sqrt_T)
          - r * K * exp_rT * normCdf d2 + q * S * exp_qT * normCdf d1
      else
        -S * normPdf d1 * sigma * exp_qT / (2 * sqrt_T)
          + r * K * exp_rT * normCdf (-d2) - q * S * exp_qT * normCdf (-d1)
    let gamma := normPdf d1 * exp_qT / (S * sigma * sqrt_T)
    let vega := S * normPdf d1 * sqrt_T * exp_qT / 100
    let theta := theta_base / 365
    let rho :=
      if p.option_type = "call" then K * T * exp_rT * normCdf d2 / 100
      else -(K * T * exp_rT * normCdf (-d2)) / 100
    let lambda_ := if price ≠ 0 then delta * S / price else 0
    { price := round6 price
      delta := round6 delta
      gamma := round6 gamma
      theta := round6 theta
      vega := round6 vega
      rho := round6 rho
      lambda_ := some (round6 lambda_) }

open Classical in
/-- GreeksCalculator._black_scholes_price. -/
noncomputable def black_scholes_price (p : OptionParameters) : ℝ :=
  let S := p.spot_price
  let K := p.strike_price
  let T := p.time_to_expiry
  let r := p.risk_free_rate
  let q := p.dividend_yield
  let sigma := p.volatility
  if T = 0 then
    if p.option_type = "call" then max (S - K) 0 else max (K - S) 0
  else if sigma = 0 then
    if p.option_type = "call" then
      max (S * Real.exp (-q * T) - K * Real.exp (-r * T)) 0
    else max (K * Real.exp (-r * T) - S * Real.exp (-q * T)) 0
  else
    if p.option_type = "call" then
      S * Real.exp (-q * T) * normCdf (d1 p) -
        K * Real.exp (-r * T) * normCdf (d2 p)
    else
      K * Real.exp (-r * T) * normCdf (-(d2 p)) -
        S * Real.exp (-q * T) * normCdf (-(d1 p))

open Classical in
/-- GreeksCalculator._calculate_numerical_greeks: the finite-difference
path, with the divisions exactly as in the source. -/
noncomputable def calculate_numerical_greeks (p : OptionParameters) : Greeks :=
  let price := black_scholes_price p
  let h_price := p.spot_price * 0.001
  let h_vol := (0.001 : ℝ)
  let h_time := (1 : ℝ) / 365
  let h_rate := (0.0001 : ℝ)
  let price_up :=
    black_scholes_price { p with spot_price := p.spot_price + h_price }
  let price_down :=
    black_scholes_price { p with spot_price := p.spot_price - h_price }
  let delta := (price_up - price_down) / (2 * h_price)
  let gamma := (price_up - 2 * price + price_down) / h_price ^ 2
  let theta :=
    if p.time_to_expiry > h_time then
      (black_scholes_price
          { p with time_to_expiry := p.time_to_expiry - h_time } - price) / 365
    else 0
  let vega :=
    (black_scholes_price { p with volatility := p.volatility + h_vol } -
      price) / 100
  let rho :=
    (black_scholes_price
        { p with risk_free_rate := p.risk_free_rate + h_rate } - price) / 100
  let lambda_ := if price ≠ 0 then delta * p.spot_price / price else 0
  { price := round6 price
    delta := round6 delta
    gamma := round6 gamma
    theta := round6 theta
    vega := round6 vega
    rho := round6 rho
    lambda_ := some (round6 lambda_) }

open Classical in
/-- GreeksCalculator._add_second_order_greeks.  At T = 0 or sigma = 0 it
returns without touching the Greeks (the optional fields stay None).  In
the main branch the source evaluates the undefined bare name gamma at the
speed formula (line 263) and raises NameError, which propagates out of
calculate_greeks; that branch is therefore an error value. -/
noncomputable def add_second_order_greeks (g : Greeks) (p : OptionParameters) :
    Except String Greeks :=
  if p.time_to_expiry = 0 ∨ p.volatility = 0 then .ok g
  else .error "NameError: name gamma is not defined"

open Classical in
/-- GreeksCalculator.calculate_greeks. -/
noncomputable def calculate_greeks (p : OptionParameters)
    (calculate_second_order : Bool) (method : String) : Except String Greeks :=
  match p.validE with
  | .error e => .error e
  | .ok _ =>
      let greeks :=
        if method = "analytical" then calculate_analytical_greeks p
        else calculate_numerical_greeks p
      if calculate_second_order then add_second_order_greeks greeks p
      else .ok greeks

open Classical in
/-- The Newton-Raphson loop of GreeksCalculator._iv_newton, threading the
mutated parameter object and the trace of volatilities assigned to it;
a none outcome means the loop finished its iterations (or hit zero vega)
and control falls through to Brent. -/
noncomputable def iv_newton_loop (option_price tolerance : ℝ) :
    Nat → ℝ → OptionParameters → List ℝ →
      OptionParameters × List ℝ × Option (Except String ℝ)
  | 0, _, p, tr => (p, tr, Option.none)
  | n + 1, vol, p, tr =>
      let p' := { p with volatility := vol }
      let tr' := tr ++ [vol]
      match calculate_greeks p' false "analytical" with
      | .error e => (p', tr', some (.error e))
      | .ok g =>
          if |g.price - option_price| < tolerance then (p', tr', some (.ok vol))
          else if g.vega = 0 then (p', tr', Option.none)
          else
            let v1 := max (vol - (g.price - option_price) / (g.vega * 100)) 0.001
            let v2 := if v1 > 5 then 5 else v1
            iv_newton_loop option_price tolerance n v2 p' tr'

open Classical in
/-- GreeksCalculator._iv_brent.  The wrapper itself evaluates the
objective (which assigns params.volatility) at the bracket ends 0.001 and
5.0; when the bracket fails it returns the nearer end.  Otherwise
scipy.optimize.brentq evaluates the objective at its internal iterates -
modelled by the trials list - and returns its final iterate. -/
noncomputable def iv_brent (option_price tolerance : ℝ)
    (p : OptionParameters) (trials : List ℝ) :
    OptionParameters × List ℝ × Except String ℝ :=
  let p1 := { p with volatility := 0.001 }
  let f_low := black_scholes_price p1 - option_price
  let p2 := { p1 with volatility := 5.0 }
  let f_high := black_scholes_price p2 - option_price
  if f_low * f_high > 0 then
    (p2, [0.001, 5.0], .ok (if |f_low| < |f_high| then 0.001 else 5.0))
  else
    let pF := trials.foldl (fun q t => { q with volatility := t }) p2
    (pF, [0.001, 5.0] ++ trials, .ok (trials.getLastD 5.0))

open Classical in
/-- GreeksCalculator.calculate_implied_volatility, returning the final
state of the params argument, the trace of volatilities assigned to it,
and the result (or propagated exception). -/
noncomputable def calculate_implied_volatility (option_price : ℝ)
    (p : OptionParameters) (method : String) (max_iterations : Nat)
    (tolerance : ℝ) (brentTrials : List ℝ) :
    OptionParameters × List ℝ × Except String ℝ :=
  if method = "newton" then
    let initial_vol :=
      Real.sqrt (2 * Real.pi / p.time_to_expiry) * option_price / p.spot_price
    let vol0 := max initial_vol 0.1
    match iv_newton_loop option_price tolerance max_iterations vol0 p [] with
    | (p', tr, some r) => (p', tr, r)
    | (p', tr, Option.none) =>
        let res := iv_brent option_price tolerance p' brentTrials
        (res.1, tr ++ res.2.1, res.2.2)
  else if method = "brent" then iv_brent option_price tolerance p brentTrials
  else (p, [], .error "Unknown method: " )

/-- A call at expiry: spot 110, strike 100, T = 0. -/
noncomputable def c7call : OptionParameters := ⟨110, 100, 0, 0.2, 0.05, 0, "call"⟩

/-- The matching put at expiry. -/
noncomputable def c7put : OptionParameters := ⟨110, 100, 0, 0.2, 0.05, 0, "put"⟩

/-- An at-the-money call, one year out, 20 percent volatility, zero rates. -/
noncomputable def c2params : OptionParameters := ⟨100, 100, 1, 0.2, 0, 0, "call"⟩

/-- A call whose caller-set volatility equals the Brent bracket top 5.0 and
whose bracket cannot straddle the (negative) target price. -/
noncomputable def c10params : OptionParameters := ⟨1, 0.5, 1, 5.0, 0, 0, "call"⟩

end GreeksEngine

/-! Concrete sources used to instantiate the failover claims. -/

/-- First configured source, marked UNHEALTHY, returning no result. -/
def srcFirstUnhealthy : DataSource Quote :=
  ⟨"first", 1, .unhealthy, 3, 0, .returns none⟩

/-- First configured source, healthy but returning no result. -/
def srcFirstEmpty : DataSource Quote :=
  ⟨"first", 1, .healthy, 0, 0, .returns none⟩

/-- First configured source, healthy but raising on get_quote. -/
def srcRaiser : DataSource Quote :=
  ⟨"boom", 1, .healthy, 0, 0, .raises⟩

/-- A healthy source returning no result. -/
def srcQuiet : DataSource Quote :=
  ⟨"quiet", 2, .healthy, 0, 0, .returns none⟩

/-- Second configured source, returning a price of 150.0. -/
def srcSecond150 : DataSource Quote :=
  ⟨"second", 2, .healthy, 0, 0, .returns (some 150)⟩

/-- Source list for the C5 witness: a raising source then an empty one. -/
def c5sources : List (DataSource Quote) := [srcRaiser, srcQuiet]

/-- A degraded source with a fresh (zero) success counter. -/
def degradedFresh : DataSource Quote := ⟨"src", 1, .degraded, 1, 0, .raises⟩

/-! ## agents/orchestrator.py - OrchestratorAgent.route_message

The routing state is the agent registry (id, name, capabilities, inbound
queue) plus the capability routing table.  Message content is modelled by
its two fields routing reads: content.get with key type and with key
required_capability.  route_message is given explicit fuel: a None result
means the call never returns (each unit of fuel allows one pass through the
mutual recursion route_message -> _handle_critical_message ->
route_message). -/

/-- MessagePriority enum. -/
inductive MessagePriority where
  | low | normal | high | critical
  deriving DecidableEq, Repr

/-- The parts of AgentMessage that routing reads. -/
structure AgentMessage where
  sender : String := ""
  recipient : String := ""
  /-- content.get with key type -/
  content_type : Option String := Option.none
  /-- content.get with key required_capability -/
  required_capability : Option String := Option.none
  priority : MessagePriority := .normal
  deriving DecidableEq, Repr

/-- A registered agent as routing sees it. -/
structure Agent where
  id : String
  name : String
  capabilities : List String
  queue : List AgentMessage
  deriving DecidableEq, Repr

/-- Orchestrator routing state. -/
structure OrchestratorState where
  agents : List Agent
  routing_table : List (String × String)
  deriving DecidableEq, Repr

/-- agent.message_queue.put(message). -/
def putMessage (st : OrchestratorState) (agentId : String)
    (msg : AgentMessage) : OrchestratorState :=
  { st with agents := st.agents.map (fun a =>
      if a.id = agentId then { a with queue := a.queue ++ [msg] } else a) }

/-- Python substring membership a in b on character lists. -/
def containsSub (needle : List Char) : List Char → Bool
  | [] => needle.isEmpty
  | c :: t => needle.isPrefixOf (c :: t) || containsSub needle t

/-- _broadcast_to_relevant_agents: deliver to every agent one of whose
capabilities is a substring of the message type.  The relevant agents are
collected before any put, so when content_type is None (where the Python
membership test raises TypeError, caught by route_message) no queue
changes either. -/
def broadcastRelevant (st : OrchestratorState) (msg : AgentMessage) :
    OrchestratorState :=
  match msg.content_type with
  | some t =>
      { st with agents := st.agents.map (fun a =>
          if a.capabilities.any (fun c => containsSub c.toList t.toList) then
            { a with queue := a.queue ++ [msg] }
          else a) }
  | Option.none => st

/-- The non-critical delivery path of route_message: direct recipient,
else capability lookup, else relevance broadcast; always returns None to
the caller. -/
def routeDeliver (st : OrchestratorState) (msg : AgentMessage) :
    OrchestratorState × Option AgentMessage :=
  if msg.recipient ≠ "" then
    match st.agents.find? (fun a => a.id = msg.recipient) with
    | some a => (putMessage st a.id msg, Option.none)
    | Option.none => (st, Option.none)
  else
    match msg.required_capability with
    | some cap =>
        if cap ≠ "" then
          match st.routing_table.lookup cap with
          | some agent_id =>
              match st.agents.find? (fun a => a.id = agent_id) with
              | some a => (putMessage st a.id msg, Option.none)
              | Option.none => (st, Option.none)
          | Option.none => (st, Option.none)
        else (broadcastRelevant st msg, Option.none)
    | Option.none => (broadcastRelevant st msg, Option.none)

/-- OrchestratorAgent.route_message with fuel.  A CRITICAL message is
handed to _handle_critical_message, which calls route_message again on the
same, still CRITICAL, message. -/
def route_message : Nat → OrchestratorState → AgentMessage →
    Option (OrchestratorState × Option AgentMessage)
  | 0, st, msg =>
      if msg.priority = .critical then Option.none
      else some (routeDeliver st msg)
  | fuel + 1, st, msg =>
      if msg.priority = .critical then route_message fuel st msg
      else some (routeDeliver st msg)

/-- A (pathological but constructible) required parameter with a non-None
declared default. -/
def pReqDefault : ToolParameter :=
  ⟨"x", .tint, true, .int 5, Option.none, Option.none, Option.none⟩

/-- An optional enumerated string parameter with a default, as in the tool
catalogue. -/
def pInterval : ToolParameter :=
  ⟨"interval", .tstr, false, .str "1d", some [.str "1m", .str "1d"],
    Option.none, Option.none⟩

/-- A required string parameter with no default. -/
def pSymbol : ToolParameter :=
  ⟨"symbol", .tstr, true, .none, Option.none, Option.none, Option.none⟩

/-- A small tool definition parameter list. -/
def c8catalog : List ToolParameter := [pInterval, pSymbol]

/-- Two one-minute bars inside one aggregation bucket. -/
def bar1 : Bar := ⟨⟨2024, 1, 1, 10, 0, 0, 0⟩, 100, 105, 99, 101, 10, "AAPL", "yfinance"⟩

/-- Second bar of the same bucket (same day and hour, minute 30). -/
def bar2 : Bar := ⟨⟨2024, 1, 1, 10, 30, 0, 0⟩, 101, 110, 95, 102, 20, "AAPL", "yfinance"⟩

/-! ### Lemmas about the health and failover model -/

lemma record_success_success_count (s : DataSource α) :
    (record_success s).success_count = s.success_count + 1 := by
  simp only [record_success]
  by_cases h : 10 < s.success_count + 1 ∧ s.status ≠ .healthy <;> simp [h]

lemma record_success_iterate_count (n : Nat) (s : DataSource α) :
    (record_success^[n] s).success_count = s.success_count + n := by
  induction n generalizing s with
  | zero => simp
  | succ k ih =>
      rw [Function.iterate_succ_apply, ih, record_success_success_count]
      omega

lemma record_success_status (s : DataSource α) :
    (record_success s).status =
      if 10 < s.success_count + 1 ∧ s.status ≠ .healthy then .healthy
      else s.status := by
  simp only [record_success]
  by_cases h : 10 < s.success_count + 1 ∧ s.status ≠ .healthy <;> simp [h]

lemma get_quote_loop_result (sources : List (DataSource α)) :
    (get_quote_loop sources).1 = firstResult (get_healthy_sources sources) := by
  induction sources with
  | nil => rfl
  | cons s rest ih =>
      by_cases h : s.status = .unhealthy
      · simp [get_quote_loop, get_healthy_sources, h, List.filter_cons] at ih ⊢
        exact ih
      · simp only [get_quote_loop, get_healthy_sources, List.filter_cons, h] at ih ⊢
        cases hq : s.quote with
        | raises => simpa [firstResult, hq, h] using ih
        | returns r =>
            cases r with
            | none => simpa [firstResult, hq, h] using ih
            | some v => simp [firstResult, hq, h]

lemma get_quote_loop_trace (sources : List (DataSource α)) :
    (get_quote_loop sources).2.2 =
      (attemptedSources (get_healthy_sources sources)).map (fun s => s.name) := by
  induction sources with
  | nil => rfl
  | cons s rest ih =>
      by_cases h : s.status = .unhealthy
      · simp [get_quote_loop, get_healthy_sources, List.filter_cons, h] at ih ⊢
        exact ih
      · simp only [get_quote_loop, get_healthy_sources, List.filter_cons, h] at ih ⊢
        cases hq : s.quote with
        | raises =>
            simp [attemptedSources, isQuoteSuccess, hq, h, List.map_cons]
            simpa using ih
        | returns r =>
            cases r with
            | none =>
                simp [attemptedSources, isQuoteSuccess, hq, h, List.map_cons]
                simpa using ih
            | some v => simp [attemptedSources, isQuoteSuccess, hq, h]

lemma firstResult_eq_none (l : List (DataSource α)) :
    firstResult l = none ↔ ∀ s ∈ l, isQuoteSuccess s = false := by
  induction l with
  | nil => simp [firstResult]
  | cons s rest ih =>
      cases hq : s.quote with
      | raises => simp [firstResult, isQuoteSuccess, hq, ih]
      | returns r =>
          cases r with
          | none => simp [firstResult, isQuoteSuccess, hq, ih]
          | some v => simp [firstResult, isQuoteSuccess, hq]

lemma attemptedSources_eq_self {l : List (DataSource α)}
    (h : ∀ s ∈ l, isQuoteSuccess s = false) : attemptedSources l = l := by
  induction l with
  | nil => rfl
  | cons s rest ih =>
      have hs := h s (List.mem_cons_self s rest)
      simp only [attemptedSources, hs, Bool.false_eq_true, if_false, List.cons.injEq, true_and]
      exact ih fun x hx => h x (List.mem_cons_of_mem s hx)

lemma get_quote_loop_length (sources : List (DataSource α)) :
    (get_quote_loop sources).2.1.length = sources.length := by
  induction sources with
  | nil => rfl
  | cons s rest ih =>
      by_cases h : s.status = .unhealthy
      · simpa [get_quote_loop, h] using ih
      · cases hq : s.quote with
        | raises => simpa [get_quote_loop, h, hq] using ih
        | returns r =>
            cases r with
            | none => simpa [get_quote_loop, h, hq] using ih
            | some v => simp [get_quote_loop, h, hq]

lemma attemptedAt_zero (s : DataSource α) (rest : List (DataSource α)) :
    attemptedAt (s :: rest) 0 ↔ s.status ≠ .unhealthy := by
  simp [attemptedAt]

lemma attemptedAt_succ (s : DataSource α) (rest : List (DataSource α)) (j : Nat) :
    attemptedAt (s :: rest) (j + 1) ↔
      ¬(s.status ≠ .unhealthy ∧ isQuoteSuccess s = true) ∧ attemptedAt rest j := by
  simp only [attemptedAt, List.drop_succ_cons, List.take_succ_cons, List.forall_mem_cons]
  tauto

/-- Element-wise description of how the failover loop updates the source
list: record_error is applied exactly to the attempted sources whose
get_quote raises; every other source, in particular one that merely returns
an empty result, is left unchanged. -/
lemma get_quote_loop_update [DecidableEq α] (sources : List (DataSource α)) (i : Nat)
    (h : i < sources.length) (h' : i < (get_quote_loop sources).2.1.length) :
    (get_quote_loop sources).2.1[i] =
      if attemptedAt sources i ∧ sources[i].quote = .raises then
        record_error sources[i]
      else sources[i] := by
  induction sources generalizing i with
  | nil => exact absurd h (Nat.not_lt_zero i)
  | cons s rest ih =>
      have step :
          ∀ j (hj : j < rest.length) (hj' : j < (get_quote_loop rest).2.1.length),
            ¬(s.status ≠ .unhealthy ∧ isQuoteSuccess s = true) →
            (get_quote_loop rest).2.1[j] =
              if attemptedAt (s :: rest) (j + 1) ∧ rest[j].quote = .raises then
                record_error rest[j]
              else rest[j] := by
        intro j hj hj' hskip
        rw [ih j hj hj']
        refine if_congr ?_ rfl rfl
        rw [attemptedAt_succ]
        tauto
      by_cases hs : s.status = .unhealthy
      · have hskip : ¬(s.status ≠ .unhealthy ∧ isQuoteSuccess s = true) := by tauto
        simp only [get_quote_loop, hs, if_true] at h' ⊢
        cases i with
        | zero =>
            have : ¬(attemptedAt (s :: rest) 0 ∧ s.quote = .raises) := by
              rw [attemptedAt_zero]; tauto
            simp [this]
        | succ j =>
            have hj : j < rest.length := by simpa using h
            have hj' : j < (get_quote_loop rest).2.1.length := by
              simpa [get_quote_loop_length] using hj
            simpa using step j hj hj' hskip
      · cases hq : s.quote with
        | raises =>
            have hskip : ¬(s.status ≠ .unhealthy ∧ isQuoteSuccess s = true) := by
              simp [isQuoteSuccess, hq]
            simp only [get_quote_loop, hs, if_false, hq] at h' ⊢
            cases i with
            | zero =>
                have : attemptedAt (s :: rest) 0 ∧ s.quote = .raises := by
                  rw [attemptedAt_zero]; exact ⟨hs, hq⟩
                simp [this]
            | succ j =>
                have hj : j < rest.length := by simpa using h
                have hj' : j < (get_quote_loop rest).2.1.length := by
                  simpa [get_quote_loop_length] using hj
                simpa using step j hj hj' hskip
        | returns r =>
            cases r with
            | none =>
                have hskip : ¬(s.status ≠ .unhealthy ∧ isQuoteSuccess s = true) := by
                  simp [isQuoteSuccess, hq]
                simp only [get_quote_loop, hs, if_false, hq] at h' ⊢
                cases i with
                | zero =>
                    have : ¬(attemptedAt (s :: rest) 0 ∧ s.quote = .raises) := by
                      simp [hq]
                    simp [this]
                | succ j =>
                    have hj : j < rest.length := by simpa using h
                    have hj' : j < (get_quote_loop rest).2.1.length := by
                      simpa [get_quote_loop_length] using hj
                    simpa using step j hj hj' hskip
            | some v =>
                simp only [get_quote_loop, hs, if_false, hq] at h' ⊢
                cases i with
                | zero =>
                    have : ¬(attemptedAt (s :: rest) 0 ∧ s.quote = .raises) := by
                      simp [hq]
                    simp [this]
                | succ j =>
                    have hj : j < rest.length := by simpa using h
                    have hsucc : s.status ≠ .unhealthy ∧ isQuoteSuccess s = true := by
                      simp [hs, isQuoteSuccess, hq]
                    have : ¬(attemptedAt (s :: rest) (j + 1) ∧
                        rest[j].quote = .raises) := by
                      rw [attemptedAt_succ]; tauto
                    simp [this]

/-- On a cache miss (cache empty), get_quote is the failover loop; the cache
afterwards holds exactly the result. -/
lemma get_quote_cache_miss (sources : List (DataSource α)) :
    get_quote true none sources =
      ((get_quote_loop sources).1, (get_quote_loop sources).1,
        (get_quote_loop sources).2.1, (get_quote_loop sources).2.2) := by
  rcases hgl : get_quote_loop sources with ⟨_ | v, s', tr⟩ <;>
    simp [get_quote, hgl]

/-! ### Lemmas about interval aggregation -/

lemma interval_minutes_pos (target : String) : 0 < interval_minutes target := by
  unfold interval_minutes
  split_ifs <;> norm_num

lemma floorToInterval_idem {tm : Nat} (htm : 0 < tm) (t : DateTime) :
    floorToInterval tm (floorToInterval tm t) = floorToInterval tm t := by
  unfold floorToInterval
  ext <;> simp [Nat.mul_div_cancel _ htm]

lemma bucketAgg_timestamp {data : List Bar} {tm : Nat} {k : DateTime} {b : Bar}
    (h : bucketAgg data tm k = some b) : b.timestamp = k := by
  unfold bucketAgg at h
  rcases hb : bucketOf data tm k with _ | ⟨q, qs⟩ <;> rw [hb] at h
  · exact absurd h (by simp)
  · cases h; rfl

lemma bucketAgg_isSome {data : List Bar} {tm : Nat} {k : DateTime}
    (h : ∃ p ∈ data, floorToInterval tm p.timestamp = k) :
    ∃ b, bucketAgg data tm k = some b ∧ b.timestamp = k := by
  obtain ⟨p, hp, hpk⟩ := h
  have hmem : p ∈ bucketOf data tm k := by
    unfold bucketOf
    rw [List.mem_filter]
    exact ⟨hp, by simpa using hpk⟩
  unfold bucketAgg
  rcases hb : bucketOf data tm k with _ | ⟨q, qs⟩
  · rw [hb] at hmem; cases hmem
  · exact ⟨aggPoint k q qs, rfl, rfl⟩

/-- A singleton bucket aggregates to its only bar. -/
lemma aggPoint_singleton {k : DateTime} {b : Bar} (h : b.timestamp = k) :
    aggPoint k b [] = b := by
  ext <;> simp [aggPoint, maxList, minList, sumList, h]

/-- Unfolding of aggregate_data on non-empty input. -/
lemma aggregate_data_eq {data : List Bar} (h : data ≠ []) (target : String) :
    aggregate_data data target =
      (((data.map (fun p =>
          floorToInterval (interval_minutes target) p.timestamp)).dedup).insertionSort
            dtLe).filterMap (bucketAgg data (interval_minutes target)) := by
  unfold aggregate_data
  rw [if_neg (by simpa [List.isEmpty_iff] using h)]

/-- If every key of l is hit by g with the key as timestamp, filterMap g
recovers l through the timestamps. -/
lemma filterMap_timestamps (g : DateTime → Option Bar) :
    ∀ l : List DateTime, (∀ k ∈ l, ∃ b, g k = some b ∧ b.timestamp = k) →
      (l.filterMap g).map (fun b => b.timestamp) = l := by
  intro l
  induction l with
  | nil => intro _; rfl
  | cons k rest ih =>
      intro h
      obtain ⟨b, hb, hts⟩ := h k (List.mem_cons_self k rest)
      rw [List.filterMap_cons, hb, List.map_cons, hts,
        ih fun x hx => h x (List.mem_cons_of_mem k hx)]

/-- In the output of filterMap g over nodup keys, filtering by one key
isolates exactly that key's bar. -/
lemma filter_filterMap_key (g : DateTime → Option Bar) :
    ∀ l : List DateTime, l.Nodup →
      (∀ k ∈ l, ∃ b, g k = some b ∧ b.timestamp = k) →
      ∀ k ∈ l, ∀ b, g k = some b →
        (l.filterMap g).filter (fun x => x.timestamp = k) = [b] := by
  intro l
  induction l with
  | nil => intro _ _ k hk; cases hk
  | cons k' rest ih =>
      intro hnd hall k hk b hb
      obtain ⟨b', hb', hts'⟩ := hall k' (List.mem_cons_self k' rest)
      have hrest : ∀ x ∈ rest, ∃ c, g x = some c ∧ c.timestamp = x :=
        fun x hx => hall x (List.mem_cons_of_mem k' hx)
      rw [List.filterMap_cons, hb', List.filter_cons]
      rcases List.mem_cons.mp hk with rfl | hkr
      · rw [hb'] at hb
        cases hb
        have hnil : (rest.filterMap g).filter (fun x => x.timestamp = k) = [] := by
          rw [List.filter_eq_nil_iff]
          intro x hx
          have hxts : x.timestamp ∈ rest := by
            have := filterMap_timestamps g rest hrest
            rw [← this]
            exact List.mem_map_of_mem _ hx
          have : k ∉ rest := (List.nodup_cons.mp hnd).1
          simp only [decide_eq_true_eq]
          intro hcontra
          rw [hcontra] at hxts
          exact this hxts
        simp [hts', hnil]
      · have hne : k' ≠ k := by
          rintro rfl
          exact (List.nodup_cons.mp hnd).1 hkr
        have : ¬(b'.timestamp = k) := by rw [hts']; exact hne
        rw [if_neg (by simpa using this)]
        exact ih (List.nodup_cons.mp hnd).2 hrest k hkr b hb

/-- Interval aggregation is idempotent for every target interval. -/
lemma aggregate_data_idem (data : List Bar) (target : String) :
    aggregate_data (aggregate_data data target) target =
      aggregate_data data target := by
  by_cases hd : data = []
  · subst hd; rfl
  · have htm : 0 < interval_minutes target := interval_minutes_pos target
    set tm := interval_minutes target with htmdef
    set SK := ((data.map
        (fun p => floorToInterval tm p.timestamp)).dedup).insertionSort dtLe
      with hSKdef
    have hA : aggregate_data data target = SK.filterMap (bucketAgg data tm) :=
      aggregate_data_eq hd target
    have hkeymem : ∀ k ∈ SK, ∃ p ∈ data, floorToInterval tm p.timestamp = k := by
      intro k hk
      rw [hSKdef, List.mem_insertionSort, List.mem_dedup, List.mem_map] at hk
      obtain ⟨p, hp, hpk⟩ := hk
      exact ⟨p, hp, hpk⟩
    have hsome : ∀ k ∈ SK, ∃ b, bucketAgg data tm k = some b ∧ b.timestamp = k :=
      fun k hk => bucketAgg_isSome (hkeymem k hk)
    have hfloork : ∀ k ∈ SK, floorToInterval tm k = k := by
      intro k hk
      obtain ⟨p, _, hpk⟩ := hkeymem k hk
      rw [← hpk]
      exact floorToInterval_idem htm _
    have hNodup : SK.Nodup := by
      rw [hSKdef]
      exact ((List.perm_insertionSort dtLe _).nodup_iff).mpr (List.nodup_dedup _)
    have hSorted : List.Sorted dtLe SK := by
      rw [hSKdef]; exact List.sorted_insertionSort dtLe _
    set A := SK.filterMap (bucketAgg data tm) with hAdef
    have hmapA : A.map (fun b => b.timestamp) = SK :=
      filterMap_timestamps _ SK hsome
    have hAne : A ≠ [] := by
      intro h0
      have hSKnil : SK = [] := by rw [← hmapA, h0]; rfl
      have hperm := List.perm_insertionSort dtLe
        ((data.map (fun p => floorToInterval tm p.timestamp)).dedup)
      rw [← hSKdef, hSKnil] at hperm
      have hK := hperm.symm.eq_nil
      rw [List.dedup_eq_nil, List.map_eq_nil_iff] at hK
      exact hd hK
    have hAfloor : ∀ b ∈ A, floorToInterval tm b.timestamp = b.timestamp := by
      intro b hb
      rw [hAdef] at hb
      obtain ⟨k, hkSK, hk⟩ := List.mem_filterMap.mp hb
      rw [bucketAgg_timestamp hk]
      exact hfloork k hkSK
    have hmapfloor : A.map (fun p => floorToInterval tm p.timestamp) = SK := by
      rw [← hmapA]
      exact List.map_congr_left hAfloor
    have hcongr : ∀ k ∈ SK, bucketAgg A tm k = bucketAgg data tm k := by
      intro k hk
      obtain ⟨b, hbk, hbts⟩ := hsome k hk
      have hfilter : A.filter (fun x => x.timestamp = k) = [b] :=
        filter_filterMap_key _ SK hNodup hsome k hk b hbk
      have hbucket : bucketOf A tm k = [b] := by
        unfold bucketOf
        rw [List.filter_congr (fun x hx => by rw [hAfloor x hx]), hfilter]
      rw [hbk]
      unfold bucketAgg
      rw [hbucket]
      simp only [Option.some.injEq]
      exact aggPoint_singleton hbts
    calc aggregate_data (aggregate_data data target) target
        = aggregate_data A target := by rw [hA]
      _ = (((A.map (fun p =>
              floorToInterval tm p.timestamp)).dedup).insertionSort
                dtLe).filterMap (bucketAgg A tm) := aggregate_data_eq hAne target
      _ = SK.filterMap (bucketAgg A tm) := by
            rw [hmapfloor, List.dedup_eq_self.mpr hNodup,
              hSorted.insertionSort_eq]
      _ = SK.filterMap (bucketAgg data tm) := List.filterMap_congr hcongr
      _ = aggregate_data data target := hA.symm

/-- Every output bar of aggregate_data is the aggregation of its own
non-empty bucket. -/
lemma aggregate_data_mem {data : List Bar} {target : String} {b : Bar}
    (hb : b ∈ aggregate_data data target) :
    ∃ q qs, bucketOf data (interval_minutes target) b.timestamp = q :: qs ∧
      b = aggPoint b.timestamp q qs := by
  by_cases hd : data = []
  · subst hd
    rw [show aggregate_data [] target = [] from rfl] at hb
    cases hb
  · rw [aggregate_data_eq hd] at hb
    obtain ⟨k, _, hk⟩ := List.mem_filterMap.mp hb
    have hts := bucketAgg_timestamp hk
    unfold bucketAgg at hk
    rcases hbk : bucketOf data (interval_minutes target) k with _ | ⟨q, qs⟩ <;>
      rw [hbk] at hk
    · cases hk
    · simp only [Option.some.injEq] at hk
      subst hk
      exact ⟨q, qs, by rw [hts]; exact hbk, rfl⟩

/-! ### Lemmas about parameter validation -/

lemma dictSet_lookup_self (d : List (String × PValue)) (k : String) (v : PValue) :
    (dictSet d k v).lookup k = some v := by
  induction d with
  | nil => simp [dictSet, List.lookup]
  | cons kv rest ih =>
      obtain ⟨k', v'⟩ := kv
      by_cases h : k' = k
      · subst h
        simp [dictSet, List.lookup]
      · have hbeq : (k == k') = false := beq_eq_false_iff_ne.mpr (Ne.symm h)
        simp only [dictSet, if_neg h, List.lookup, hbeq]
        exact ih

lemma dictSet_lookup_ne (d : List (String × PValue)) (k k' : String) (v : PValue)
    (h : k' ≠ k) : (dictSet d k v).lookup k' = d.lookup k' := by
  have hbeq : (k' == k) = false := beq_eq_false_iff_ne.mpr h
  induction d with
  | nil => simp [dictSet, List.lookup, hbeq]
  | cons kv rest ih =>
      obtain ⟨k'', v''⟩ := kv
      by_cases h2 : k'' = k
      · subst h2
        simp only [dictSet, if_pos rfl, List.lookup, hbeq]
      · simp only [dictSet, if_neg h2, List.lookup]
        cases hb : (k' == k'') <;> simp only []
        exact ih

lemma validateParamsGo_preserves (params : List (String × PValue)) :
    ∀ (defn : List ToolParameter) (validated m : List (String × PValue))
      (k : String), validateParamsGo params defn validated = .ok m →
      (∀ r ∈ defn, r.name ≠ k) → m.lookup k = validated.lookup k := by
  intro defn
  induction defn with
  | nil =>
      intro validated m k hok _
      cases hok
      rfl
  | cons q rest ih =>
      intro validated m k hok hnames
      unfold validateParamsGo at hok
      by_cases hc : q.required = true ∧ pGet params q.name q.default = .none
      · rw [if_pos hc] at hok; cases hok
      · rw [if_neg hc] at hok
        rcases hch : (if pGet params q.name q.default = .none then
            Except.ok (pGet params q.name q.default)
          else checkValue q (pGet params q.name q.default)) with e | v
        · rw [hch] at hok; cases hok
        · rw [hch] at hok
          rw [ih (dictSet validated q.name v) m k hok
            (fun r hr => hnames r (List.mem_cons_of_mem q hr))]
          exact dictSet_lookup_ne validated q.name k v
            (Ne.symm (hnames q (List.mem_cons_self q rest)))

lemma checkValue_choices_error {p : ToolParameter} {v : PValue}
    {cs : List PValue} (hch : p.choices = some cs) (hcs : cs ≠ [])
    (hout : ∀ v', coerceFor p v = .ok v' →
      cs.any (fun c => pyEq c v') = false) :
    isError (checkValue p v) = true := by
  unfold checkValue
  rcases hco : coerceFor p v with e | v'
  · rfl
  · have hcond : cs ≠ [] ∧ (cs.any fun c => pyEq c v') = false :=
      ⟨hcs, hout v' hco⟩
    simp [hch, hcond, isError]

lemma validateParamsGo_required_error (params : List (String × PValue)) :
    ∀ (defn : List ToolParameter) (validated : List (String × PValue)),
      ∀ p ∈ defn, p.required = true → pGet params p.name p.default = .none →
      isError (validateParamsGo params defn validated) = true := by
  intro defn
  induction defn with
  | nil => intro _ p hp; cases hp
  | cons q rest ih =>
      intro validated p hp hreq hval
      unfold validateParamsGo
      rcases List.mem_cons.mp hp with rfl | hp'
      · rw [if_pos ⟨hreq, hval⟩]; rfl
      · by_cases hc : q.required = true ∧ pGet params q.name q.default = .none
        · rw [if_pos hc]; rfl
        · rw [if_neg hc]
          rcases hch : (if pGet params q.name q.default = .none then
              Except.ok (pGet params q.name q.default)
            else checkValue q (pGet params q.name q.default)) with e | v
          · rfl
          · exact ih (dictSet validated q.name v) p hp' hreq hval

lemma validateParamsGo_choices_error (params : List (String × PValue)) :
    ∀ (defn : List ToolParameter) (validated : List (String × PValue)),
      ∀ p ∈ defn, ∀ cs : List PValue,
      pGet params p.name p.default ≠ .none →
      p.choices = some cs → cs ≠ [] →
      (∀ v', coerceFor p (pGet params p.name p.default) = .ok v' →
        cs.any (fun c => pyEq c v') = false) →
      isError (validateParamsGo params defn validated) = true := by
  intro defn
  induction defn with
  | nil => intro _ p hp; cases hp
  | cons q rest ih =>
      intro validated p hp cs hval hch hcs hout
      unfold validateParamsGo
      rcases List.mem_cons.mp hp with rfl | hp'
      · rw [if_neg (fun hc => hval hc.2), if_neg hval]
        have herr := checkValue_choices_error hch hcs hout
        rcases hck : checkValue p (pGet params p.name p.default) with e | v
        · rfl
        · rw [hck] at herr; cases herr
      · by_cases hc : q.required = true ∧ pGet params q.name q.default = .none
        · rw [if_pos hc]; rfl
        · rw [if_neg hc]
          rcases hck : (if pGet params q.name q.default = .none then
              Except.ok (pGet params q.name q.default)
            else checkValue q (pGet params q.name q.default)) with e | v
          · rfl
          · exact ih (dictSet validated q.name v) p hp' cs hval hch hcs hout

lemma validateParamsGo_default (params : List (String × PValue)) :
    ∀ (defn : List ToolParameter) (validated m : List (String × PValue)),
      validateParamsGo params defn validated = .ok m →
      (defn.map (fun p => p.name)).Nodup →
      ∀ p ∈ defn, params.lookup p.name = Option.none →
      (p.default = .none ∨ checkValue p p.default = .ok p.default) →
      m.lookup p.name = some p.default := by
  intro defn
  induction defn with
  | nil => intro _ _ _ _ p hp; cases hp
  | cons q rest ih =>
      intro validated m hok hnd p hp homit hdef
      unfold validateParamsGo at hok
      by_cases hc : q.required = true ∧ pGet params q.name q.default = .none
      · rw [if_pos hc] at hok; cases hok
      · rw [if_neg hc] at hok
        rcases hch : (if pGet params q.name q.default = .none then
            Except.ok (pGet params q.name q.default)
          else checkValue q (pGet params q.name q.default)) with e | v
        · rw [hch] at hok; cases hok
        · rw [hch] at hok
          rcases List.mem_cons.mp hp with rfl | hp'
          · have hnd' : (∀ x ∈ rest, ¬x.name = p.name) ∧
                (rest.map (fun r => r.name)).Nodup := by simpa using hnd
            have hqnames : ∀ r ∈ rest, r.name ≠ p.name :=
              fun r hr => hnd'.1 r hr
            have hpv : pGet params p.name p.default = p.default := by
              simp [pGet, homit]
            have hv : v = p.default := by
              rw [hpv] at hch
              by_cases hdn : p.default = .none
              · rw [if_pos hdn] at hch
                cases hch
                rfl
              · rw [if_neg hdn] at hch
                rcases hdef with hdef | hdef
                · exact absurd hdef hdn
                · rw [hdef] at hch
                  cases hch
                  rfl
            rw [validateParamsGo_preserves params rest _ m p.name hok hqnames,
              hv.symm]
            exact dictSet_lookup_self validated p.name v
          · have hnd' : (∀ x ∈ rest, ¬x.name = q.name) ∧
                (rest.map (fun r => r.name)).Nodup := by simpa using hnd
            exact ih (dictSet validated q.name v) m hok hnd'.2 p hp' homit hdef

/-! ### Facts about the standard normal density and CDF -/

section GaussianFacts

open Real MeasureTheory

lemma normPdf_nonneg (x : ℝ) : 0 ≤ normPdf x := by
  unfold normPdf
  positivity

lemma normPdf_le (x : ℝ) : normPdf x ≤ (Real.sqrt (2 * π))⁻¹ := by
  unfold normPdf
  have h1 : Real.exp (-(x ^ 2) / 2) ≤ 1 := by
    have h2 := Real.exp_le_exp.mpr (show -(x ^ 2) / 2 ≤ 0 by nlinarith [sq_nonneg x])
    simpa using h2
  have h3 : (0 : ℝ) ≤ (Real.sqrt (2 * π))⁻¹ := by positivity
  calc (Real.sqrt (2 * π))⁻¹ * Real.exp (-(x ^ 2) / 2)
      ≤ (Real.sqrt (2 * π))⁻¹ * 1 := mul_le_mul_of_nonneg_left h1 h3
    _ = (Real.sqrt (2 * π))⁻¹ := mul_one _

lemma integrable_normPdf : Integrable normPdf := by
  have heq : normPdf = fun x =>
      (Real.sqrt (2 * π))⁻¹ * Real.exp (-(1 / 2 : ℝ) * x ^ 2) := by
    funext x
    unfold normPdf
    congr 1
    ring
  rw [heq]
  exact (integrable_exp_neg_mul_sq (by norm_num)).const_mul _

lemma integral_normPdf : ∫ x, normPdf x = 1 := by
  calc ∫ x, normPdf x
      = ∫ x, (Real.sqrt (2 * π))⁻¹ * Real.exp (-(1 / 2 : ℝ) * x ^ 2) := by
        congr 1
        funext x
        unfold normPdf
        congr 1
        ring
    _ = (Real.sqrt (2 * π))⁻¹ * ∫ x, Real.exp (-(1 / 2 : ℝ) * x ^ 2) :=
        integral_mul_left _ _
    _ = (Real.sqrt (2 * π))⁻¹ * Real.sqrt (π / (1 / 2)) := by
        rw [integral_gaussian]
    _ = 1 := by
        rw [show π / (1 / 2 : ℝ) = 2 * π by ring]
        exact inv_mul_cancel₀ (ne_of_gt (Real.sqrt_pos.mpr (by positivity)))

lemma normCdf_nonneg (x : ℝ) : 0 ≤ normCdf x :=
  setIntegral_nonneg measurableSet_Iic fun t _ => normPdf_nonneg t

lemma normCdf_le_one (x : ℝ) : normCdf x ≤ 1 := by
  have h : ∫ t in Set.Iic x, normPdf t ≤ ∫ t, normPdf t :=
    setIntegral_le_integral integrable_normPdf
      (Filter.Eventually.of_forall normPdf_nonneg)
  rw [integral_normPdf] at h
  exact h

lemma normCdf_mono : Monotone normCdf := fun a b h => by
  unfold normCdf
  exact setIntegral_mono_set integrable_normPdf.integrableOn
    (Filter.Eventually.of_forall fun t => normPdf_nonneg t)
    (HasSubset.Subset.eventuallyLE (Set.Iic_subset_Iic.mpr h))

lemma normCdf_sub_le {a b : ℝ} (h : a ≤ b) :
    normCdf b - normCdf a ≤ (b - a) * (Real.sqrt (2 * π))⁻¹ := by
  have hdiff : normCdf b - normCdf a = ∫ t in Set.Ioc a b, normPdf t := by
    unfold normCdf
    rw [intervalIntegral.integral_Iic_sub_Iic integrable_normPdf.integrableOn
      integrable_normPdf.integrableOn, intervalIntegral.integral_of_le h]
  have hvol : volume (Set.Ioc a b) < ⊤ := by
    rw [Real.volume_Ioc]
    exact ENNReal.ofReal_lt_top
  have hnorm : ‖∫ t in Set.Ioc a b, normPdf t‖ ≤
      (Real.sqrt (2 * π))⁻¹ * (volume (Set.Ioc a b)).toReal :=
    norm_setIntegral_le_of_norm_le_const' hvol measurableSet_Ioc
      (fun t _ => by
        rw [Real.norm_eq_abs, abs_of_nonneg (normPdf_nonneg t)]
        exact normPdf_le t)
  have htoReal : (volume (Set.Ioc a b)).toReal = b - a := by
    rw [Real.volume_Ioc, ENNReal.toReal_ofReal (by linarith)]
  rw [htoReal] at hnorm
  have habs : ∫ t in Set.Ioc a b, normPdf t ≤
      ‖∫ t in Set.Ioc a b, normPdf t‖ := by
    rw [Real.norm_eq_abs]
    exact le_abs_self _
  rw [hdiff, mul_comm]
  exact le_trans habs hnorm

end GaussianFacts

section GreeksClaimLemmas

open Real

lemma validE_ok {p : OptionParameters} (hS : 0 < p.spot_price)
    (hK : 0 < p.strike_price) (hT : 0 ≤ p.time_to_expiry)
    (hv : 0 ≤ p.volatility)
    (hopt : p.option_type = "call" ∨ p.option_type = "put") :
    p.validE = .ok () := by
  unfold OptionParameters.validE
  rw [if_neg (not_le.mpr hS), if_neg (not_le.mpr hK),
    if_neg (not_lt.mpr hT), if_neg (not_lt.mpr hv),
    if_neg (show ¬(p.option_type ≠ "call" ∧ p.option_type ≠ "put") by
      rcases hopt with h | h <;> simp [h])]

lemma calculate_greeks_analytical_eq {p : OptionParameters}
    (hok : p.validE = .ok ()) :
    calculate_greeks p true "analytical" =
      add_second_order_greeks (calculate_analytical_greeks p) p := by
  unfold calculate_greeks
  rw [hok]
  rfl

lemma calculate_analytical_greeks_expiry {p : OptionParameters}
    (hT : p.time_to_expiry = 0) :
    calculate_analytical_greeks p = calculate_expiry_greeks p := by
  simp only [calculate_analytical_greeks]
  rw [if_pos hT]

lemma add_second_order_expiry {g : Greeks} {p : OptionParameters}
    (hT : p.time_to_expiry = 0) :
    add_second_order_greeks g p = .ok g := by
  simp only [add_second_order_greeks]
  rw [if_pos (Or.inl hT)]

/-- At T = 0 with valid parameters, calculate_greeks with second order
requested returns the intrinsic-value Greeks untouched. -/
lemma calculate_greeks_expiry {p : OptionParameters} (hS : 0 < p.spot_price)
    (hK : 0 < p.strike_price) (hT : p.time_to_expiry = 0)
    (hv : 0 ≤ p.volatility)
    (hopt : p.option_type = "call" ∨ p.option_type = "put") :
    calculate_greeks p true "analytical" = .ok (calculate_expiry_greeks p) := by
  rw [calculate_greeks_analytical_eq
      (validE_ok hS hK (le_of_eq hT.symm) hv hopt),
    calculate_analytical_greeks_expiry hT, add_second_order_expiry hT]

lemma getLastD_append_right (l1 l2 : List ℝ) (h : l2 ≠ []) :
    ∀ d : ℝ, (l1 ++ l2).getLastD d = l2.getLastD d := by
  induction l1 with
  | nil => intro d; rfl
  | cons a t ih =>
      intro d
      rw [List.cons_append, List.getLastD_cons, ih a]
      cases l2 with
      | nil => exact absurd rfl h
      | cons b bs => rw [List.getLastD_cons, List.getLastD_cons]

/-- Folding volatility assignments over a parameter record keeps every
other field and leaves the last assigned volatility. -/
lemma foldl_set_volatility (trials : List ℝ) : ∀ p : OptionParameters,
    trials.foldl (fun q t => { q with volatility := t }) p =
      if trials = [] then p
      else { p with volatility := trials.getLastD 0 } := by
  induction trials with
  | nil => intro p; rfl
  | cons t ts ih =>
      intro p
      rw [List.foldl_cons, ih]
      by_cases h : ts = []
      · subst h
        rw [if_pos rfl, if_neg (List.cons_ne_nil t [])]
        rfl
      · rw [if_neg h, if_neg (List.cons_ne_nil t ts), List.getLastD_cons]
        cases ts with
        | nil => exact absurd rfl h
        | cons b bs => rw [List.getLastD_cons, List.getLastD_cons]

/-- iv_brent always assigns at least the two bracket volatilities to the
parameter record; afterwards the volatility field holds the last assigned
value and every other field is unchanged. -/
lemma iv_brent_frame (option_price tolerance : ℝ) (p : OptionParameters)
    (trials : List ℝ) :
    (iv_brent option_price tolerance p trials).2.1 ≠ [] ∧
    (iv_brent option_price tolerance p trials).1 =
      { p with volatility :=
          (iv_brent option_price tolerance p trials).2.1.getLastD 0 } := by
  simp only [iv_brent]
  split_ifs with h h2
  · exact ⟨by simp, rfl⟩
  · exact ⟨by simp, rfl⟩
  · refine ⟨by simp, ?_⟩
    rw [foldl_set_volatility]
    by_cases ht : trials = []
    · subst ht
      rw [if_pos rfl]
      rfl
    · rw [if_neg ht, getLastD_append_right _ _ ht]

/-- The Newton loop either does nothing (zero fuel) or assigns a non-empty
block of trial volatilities, the last of which is left in the volatility
field with every other field unchanged. -/
lemma iv_newton_loop_frame (option_price tolerance : ℝ) :
    ∀ (n : Nat) (vol : ℝ) (p : OptionParameters) (tr : List ℝ),
      ((iv_newton_loop option_price tolerance n vol p tr).1 = p ∧
        (iv_newton_loop option_price tolerance n vol p tr).2.1 = tr ∧
        (iv_newton_loop option_price tolerance n vol p tr).2.2 =
          Option.none) ∨
      (∃ δ, δ ≠ [] ∧
        (iv_newton_loop option_price tolerance n vol p tr).2.1 = tr ++ δ ∧
        (iv_newton_loop option_price tolerance n vol p tr).1 =
          { p with volatility := δ.getLastD 0 }) := by
  intro n
  induction n with
  | zero => intro vol p tr; exact Or.inl ⟨rfl, rfl, rfl⟩
  | succ k ih =>
      intro vol p tr
      right
      rcases hg : calculate_greeks { p with volatility := vol } false
          "analytical" with e | g
      · refine ⟨[vol], by simp, ?_, ?_⟩
        · simp only [iv_newton_loop, hg]
        · simp only [iv_newton_loop, hg]
          rfl
      · by_cases h1 : |g.price - option_price| < tolerance
        · refine ⟨[vol], by simp, ?_, ?_⟩
          · simp only [iv_newton_loop, hg]
            rw [if_pos h1]
          · simp only [iv_newton_loop, hg]
            rw [if_pos h1]
            rfl
        · by_cases h2 : g.vega = 0
          · refine ⟨[vol], by simp, ?_, ?_⟩
            · simp only [iv_newton_loop, hg]
              rw [if_neg h1, if_pos h2]
            · simp only [iv_newton_loop, hg]
              rw [if_neg h1, if_pos h2]
              rfl
          · have hstep : iv_newton_loop option_price tolerance (k + 1) vol
                p tr =
                iv_newton_loop option_price tolerance k
                  (if max (vol - (g.price - option_price) / (g.vega * 100))
                        0.001 > 5 then 5
                    else max
                      (vol - (g.price - option_price) / (g.vega * 100))
                      0.001)
                  { p with volatility := vol } (tr ++ [vol]) := by
              simp only [iv_newton_loop, hg]
              rw [if_neg h1, if_neg h2]
            rw [hstep]
            rcases ih _ { p with volatility := vol } (tr ++ [vol]) with
              ⟨hp, htr, hres⟩ | ⟨δ, hδ, htr, hp⟩
            · refine ⟨[vol], by simp, ?_, ?_⟩
              · rw [htr]
              · rw [hp]
                rfl
            · refine ⟨[vol] ++ δ, by simp, ?_, ?_⟩
              · rw [htr, List.append_assoc]
              · rw [hp, getLastD_append_right [vol] δ hδ]

/-- The Black-Scholes price in the main branch for a call. -/
lemma black_scholes_call_main {p : OptionParameters}
    (hT : p.time_to_expiry ≠ 0) (hv : p.volatility ≠ 0)
    (hc : p.option_type = "call") :
    black_scholes_price p =
      p.spot_price * Real.exp (-p.dividend_yield * p.time_to_expiry) *
          normCdf (d1 p) -
        p.strike_price * Real.exp (-p.risk_free_rate * p.time_to_expiry) *
          normCdf (d2 p) := by
  simp only [black_scholes_price]
  rw [if_neg hT, if_neg hv, if_pos hc]

/-- The vega of the finite-difference path, as written in the source:
a 0.001 volatility bump divided by 100. -/
lemma numerical_vega (p : OptionParameters) :
    (calculate_numerical_greeks p).vega =
      round6 ((black_scholes_price
          { p with volatility := p.volatility + 0.001 } -
        black_scholes_price p) / 100) := rfl

/-- The vega of the analytical path away from the T = 0 and sigma = 0
special cases. -/
lemma analytical_vega {p : OptionParameters} (hT : p.time_to_expiry ≠ 0)
    (hv : p.volatility ≠ 0) :
    (calculate_analytical_greeks p).vega =
      round6 (p.spot_price * normPdf (d1 p) * Real.sqrt p.time_to_expiry *
        Real.exp (-p.dividend_yield * p.time_to_expiry) / 100) := by
  simp only [calculate_analytical_greeks]
  rw [if_neg hT, if_neg hv]

lemma d1_c2 : d1 c2params = 0.1 := by
  norm_num [d1, c2params, Real.log_one, Real.sqrt_one]

lemma d2_c2 : d2 c2params = -0.1 := by
  simp only [d2, d1_c2]
  norm_num [c2params, Real.sqrt_one]

lemma d1_c2up :
    d1 { c2params with volatility := c2params.volatility + 0.001 } =
      0.1005 := by
  norm_num [d1, c2params, Real.log_one, Real.sqrt_one]

lemma d2_c2up :
    d2 { c2params with volatility := c2params.volatility + 0.001 } =
      -0.1005 := by
  simp only [d2, d1_c2up]
  norm_num [c2params, Real.sqrt_one]

lemma bs_c2_base : black_scholes_price c2params =
    100 * normCdf 0.1 - 100 * normCdf (-0.1) := by
  have hT : c2params.time_to_expiry ≠ 0 := by norm_num [c2params]
  have hv : c2params.volatility ≠ 0 := by norm_num [c2params]
  rw [black_scholes_call_main hT hv rfl, d1_c2, d2_c2]
  norm_num [c2params, Real.exp_zero]

lemma bs_c2_up :
    black_scholes_price
        { c2params with volatility := c2params.volatility + 0.001 } =
      100 * normCdf 0.1005 - 100 * normCdf (-0.1005) := by
  have hT : ({ c2params with volatility := c2params.volatility + 0.001 } :
      OptionParameters).time_to_expiry ≠ 0 := by norm_num [c2params]
  have hv : ({ c2params with volatility := c2params.volatility + 0.001 } :
      OptionParameters).volatility ≠ 0 := by norm_num [c2params]
  rw [black_scholes_call_main hT hv rfl, d1_c2up, d2_c2up]
  norm_num [c2params, Real.exp_zero]

/-- Rounding to six decimals moves a value by at most 10⁻⁶. -/
lemma round6_abs_le (x : ℝ) : |round6 x - x| ≤ 1 / 1000000 := by
  unfold round6
  have h := abs_sub_round (x * 1000000)
  have heq : ((round (x * 1000000) : ℤ) : ℝ) / 1000000 - x =
      -((x * 1000000 - ((round (x * 1000000) : ℤ) : ℝ)) / 1000000) := by
    ring
  rw [heq, abs_neg, abs_div, abs_of_pos (show (0:ℝ) < 1000000 by norm_num)]
  calc |x * 1000000 - ((round (x * 1000000) : ℤ) : ℝ)| / 1000000
      ≤ (1 / 2) / 1000000 := by
        exact (div_le_div_right (by norm_num)).mpr h
    _ ≤ 1 / 1000000 := by norm_num

end GreeksClaimLemmas

/-! ### Claim theorems -/


/-- C1: on a cache miss, DataAggregator.get_quote tries the configured
sources in ascending priority order (the initialised list is sorted by
priority and attempts follow it), skips every UNHEALTHY source, and returns
the first non-empty result; concretely, with two sources where the first is
UNHEALTHY or returns no result and the second returns a price of 150.0, the
call returns 150.0, and in the second scenario the first source is attempted
before the second. -/
theorem c1_get_quote_failover :
    (∀ cfg : List (DataSource Quote),
      List.Sorted priorityLe (initialize_sources cfg) ∧
      (get_quote true none (initialize_sources cfg)).2.2.2 =
        (attemptedSources (get_healthy_sources (initialize_sources cfg))).map
          (fun s => s.name) ∧
      (get_quote true none (initialize_sources cfg)).1 =
        firstResult (get_healthy_sources (initialize_sources cfg))) ∧
    (get_quote true none
        (initialize_sources [srcFirstUnhealthy, srcSecond150])).1 = some 150 ∧
    (get_quote true none
        (initialize_sources [srcFirstUnhealthy, srcSecond150])).2.2.2 = ["second"] ∧
    (get_quote true none
        (initialize_sources [srcFirstEmpty, srcSecond150])).1 = some 150 ∧
    (get_quote true none
        (initialize_sources [srcFirstEmpty, srcSecond150])).2.2.2 =
      ["first", "second"] := by
  refine ⟨fun cfg => ⟨List.sorted_insertionSort priorityLe cfg, ?_, ?_⟩,
    by decide, by decide, by decide, by decide⟩
  · rw [get_quote_cache_miss]
    exact get_quote_loop_trace _
  · rw [get_quote_cache_miss]
    exact get_quote_loop_result _

/-- C4 counterexample: from a degraded source with a fresh success counter,
ten consecutive record_success calls do NOT restore HEALTHY (the code
requires the cumulative success count to exceed ten, so the status is still
DEGRADED after ten successes). -/
theorem c4_ten_successes_counterexample :
    degradedFresh.status = .degraded ∧
      (record_success^[10] degradedFresh).status ≠ .healthy := by
  constructor
  · rfl
  · decide

/-- C4 (amended): a health check whose canary get_quote succeeds sets status
HEALTHY and resets the error counter; an exception during the check
increments the error counter, giving DEGRADED at 1 error and UNHEALTHY at 3
or more; and from a degraded state, recorded successes restore HEALTHY as
soon as the cumulative success count exceeds ten - in particular eleven
consecutive recorded successes always do. -/
theorem c4_health_transitions :
    (∀ (s : DataSource Quote) (q : Quote),
      (health_check s (.returns (some q))).status = .healthy ∧
      (health_check s (.returns (some q))).error_count = 0) ∧
    (∀ s : DataSource Quote,
      (health_check s .raises).error_count = s.error_count + 1 ∧
      ((health_check s .raises).error_count = 1 →
        (health_check s .raises).status = .degraded) ∧
      (3 ≤ (health_check s .raises).error_count →
        (health_check s .raises).status = .unhealthy)) ∧
    (∀ s : DataSource Quote, s.status = .degraded →
      (record_success^[11] s).status = .healthy) := by
  refine ⟨fun s q => ⟨rfl, rfl⟩, fun s => ?_, fun s hs => ?_⟩
  · by_cases h3 : 3 ≤ s.error_count + 1 <;>
      simp [health_check, h3] <;> omega
  · rw [show (11 : Nat) = 10 + 1 from rfl, Function.iterate_succ_apply',
      record_success_status, record_success_iterate_count]
    have hcount : 10 < s.success_count + 10 + 1 := by omega
    by_cases hh : (record_success^[10] s).status = .healthy
    · rw [if_neg (fun hc => hc.2 hh)]
      exact hh
    · rw [if_pos ⟨hcount, hh⟩]

/-- C4 witness: the transitions of c4_health_transitions at concrete
sources, discharging each hypothesis. -/
theorem c4_health_transitions_witness :
    ((health_check degradedFresh (.returns (some 1))).status = .healthy ∧
      (health_check degradedFresh (.returns (some 1))).error_count = 0) ∧
    (health_check srcFirstEmpty .raises).status = .degraded ∧
    (health_check degradedFresh .raises).error_count = 2 ∧
    (health_check (record_error degradedFresh) .raises).status = .unhealthy ∧
    (record_success^[11] degradedFresh).status = .healthy := by
  refine ⟨c4_health_transitions.1 degradedFresh 1, ?_, ?_, ?_,
    c4_health_transitions.2.2 degradedFresh rfl⟩
  · exact (c4_health_transitions.2.1 srcFirstEmpty).2.1 (by decide)
  · exact (c4_health_transitions.2.1 degradedFresh).1
  · exact (c4_health_transitions.2.1 (record_error degradedFresh)).2.2 (by decide)

/-- C5 counterexample: with a first healthy source that returns nothing and
a second that returns 150.0, the call succeeds with 150.0 but NO health
error is recorded against the first source (its error counter stays 0 and
its status stays HEALTHY), contradicting the claim that an error is
recorded in both failure cases. -/
theorem c5_no_error_on_empty_counterexample :
    (get_quote true none [srcFirstEmpty, srcSecond150]).1 = some 150 ∧
    (get_quote true none [srcFirstEmpty, srcSecond150]).2.2.1 =
      [srcFirstEmpty, srcSecond150] ∧
    srcFirstEmpty.error_count = 0 ∧ srcFirstEmpty.status = .healthy := by
  refine ⟨by decide, by decide, rfl, rfl⟩

/-- C5 (amended): in DataAggregator.get_quote a health error is recorded
against exactly the attempted sources whose get_quote raises - a source
returning an empty result is skipped with no error recorded - and the call
returns absent if and only if every non-UNHEALTHY source fails, in which
case every non-UNHEALTHY source was attempted. -/
theorem c5_error_recording :
    (∀ (sources : List (DataSource Quote)) (i : Nat) (d : DataSource Quote),
      i < sources.length →
      (get_quote true none sources).2.2.1.getD i d =
        if attemptedAt sources i ∧ (sources.getD i d).quote = .raises then
          record_error (sources.getD i d)
        else sources.getD i d) ∧
    (∀ sources : List (DataSource Quote),
      (get_quote true none sources).1 = none ↔
        ∀ s ∈ get_healthy_sources sources, isQuoteSuccess s = false) ∧
    (∀ sources : List (DataSource Quote),
      (get_quote true none sources).1 = none →
      (get_quote true none sources).2.2.2 =
        (get_healthy_sources sources).map (fun s => s.name)) := by
  refine ⟨fun sources i d h => ?_, fun sources => ?_, fun sources h => ?_⟩
  · have h' : i < (get_quote_loop sources).2.1.length := by
      rw [get_quote_loop_length]; exact h
    rw [get_quote_cache_miss]
    simp only
    rw [List.getD_eq_getElem _ _ h', List.getD_eq_getElem _ _ h]
    exact get_quote_loop_update sources i h h'
  · rw [get_quote_cache_miss]
    simp only
    rw [get_quote_loop_result]
    exact firstResult_eq_none _
  · rw [get_quote_cache_miss] at h ⊢
    simp only at h ⊢
    rw [get_quote_loop_trace]
    rw [get_quote_loop_result] at h
    rw [attemptedSources_eq_self ((firstResult_eq_none _).mp h)]

/-- C3: the claim fails on the code - route_message does NOT terminate for
a CRITICAL message: it hands the message to _handle_critical_message,
which calls route_message on the same still-CRITICAL message, so no amount
of fuel produces a result; the identical message at NORMAL priority is
delivered in one step through the direct/capability/broadcast path. -/
theorem c3_critical_routing_divergence :
    (∀ (fuel : Nat) (st : OrchestratorState) (msg : AgentMessage),
      route_message fuel st { msg with priority := .critical } = Option.none) ∧
    (∀ (fuel : Nat) (st : OrchestratorState) (msg : AgentMessage),
      route_message fuel st { msg with priority := .normal } =
        some (routeDeliver st { msg with priority := .normal })) := by
  constructor
  · intro fuel
    induction fuel with
    | zero => intro st msg; simp [route_message]
    | succ n ih => intro st msg; simpa [route_message] using ih st msg
  · intro fuel st msg
    cases fuel <;> simp [route_message]

/-- C8 counterexample: a required parameter with a declared non-None
default does NOT fail when omitted - params.get(name, default) fills it
from the default, so validate_parameters succeeds, contradicting the claim
that omitting a required parameter always fails. -/
theorem c8_required_default_counterexample :
    pReqDefault.required = true ∧
    ([] : List (String × PValue)).lookup pReqDefault.name = Option.none ∧
    validate_parameters [pReqDefault] [] = .ok [("x", .int 5)] :=
  ⟨rfl, rfl, by decide⟩

/-- C8 (amended): validate_parameters fails when a required parameter
resolves to None (omitted with no declared default); fails when a supplied
parameter with non-empty declared choices coerces to a value outside those
choices (and on any coercion failure); and on success the returned mapping
holds, for every omitted parameter whose declared default passes its own
validation unchanged (every definition in the catalogue does), exactly that
declared default. -/
theorem c8_validate_parameters :
    (∀ (defn : List ToolParameter) (params : List (String × PValue)),
      ∀ p ∈ defn, p.required = true → pGet params p.name p.default = .none →
      isError (validate_parameters defn params) = true) ∧
    (∀ (defn : List ToolParameter) (params : List (String × PValue)),
      ∀ p ∈ defn, ∀ cs : List PValue,
      pGet params p.name p.default ≠ .none →
      p.choices = some cs → cs ≠ [] →
      (∀ v', coerceFor p (pGet params p.name p.default) = .ok v' →
        cs.any (fun c => pyEq c v') = false) →
      isError (validate_parameters defn params) = true) ∧
    (∀ (defn : List ToolParameter) (params m : List (String × PValue)),
      validate_parameters defn params = .ok m →
      (defn.map (fun p => p.name)).Nodup →
      ∀ p ∈ defn, params.lookup p.name = Option.none →
      (p.default = .none ∨ checkValue p p.default = .ok p.default) →
      m.lookup p.name = some p.default) :=
  ⟨fun defn params p hp hreq hval =>
      validateParamsGo_required_error params defn [] p hp hreq hval,
    fun defn params p hp cs hval hch hcs hout =>
      validateParamsGo_choices_error params defn [] p hp cs hval hch hcs hout,
    fun defn params m hok hnd p hp homit hdef =>
      validateParamsGo_default params defn [] m hok hnd p hp homit hdef⟩

/-- C8 witness: the three validation facts at the concrete two-parameter
catalogue, discharging each hypothesis. -/
theorem c8_validate_parameters_witness :
    isError (validate_parameters c8catalog []) = true ∧
    isError (validate_parameters c8catalog
      [("interval", .str "2h"), ("symbol", .str "AAPL")]) = true ∧
    validate_parameters c8catalog [("symbol", .str "AAPL")] =
      .ok [("interval", .str "1d"), ("symbol", .str "AAPL")] ∧
    ([("interval", PValue.str "1d"),
        ("symbol", PValue.str "AAPL")] : List (String × PValue)).lookup
      pInterval.name = some pInterval.default :=
  ⟨c8_validate_parameters.1 c8catalog [] pSymbol (by decide) rfl (by decide),
    c8_validate_parameters.2.1 c8catalog
      [("interval", .str "2h"), ("symbol", .str "AAPL")] pInterval
      (by decide) [.str "1m", .str "1d"] (by decide) rfl (by decide)
      (fun v' hv' => by cases hv'; decide),
    by decide,
    c8_validate_parameters.2.2 c8catalog [("symbol", .str "AAPL")]
      [("interval", .str "1d"), ("symbol", .str "AAPL")] (by decide)
      (by decide) pInterval (by decide) (by decide) (Or.inr (by decide))⟩

/-- C9: validate_date_range parses both endpoints via validate_date (a
parse failure on the first endpoint propagates), fails when the parsed
start is after the parsed end - concretely for 2024-01-01 after 2023-01-01 -
fails when the span exceeds 1825 days, and succeeds whenever start ≤ end
and the span is at most 1825 days, in particular at exactly 1825. -/
theorem c9_validate_date_range :
    validate_date_range (.str "2024-01-01") (.str "2023-01-01") =
      .error "Start date must be before end date" ∧
    (∀ a b : DateInput, ∀ msg : String,
      validate_date a = .error msg → validate_date_range a b = .error msg) ∧
    (∀ (a b : DateInput) (s e : DateTime),
      validate_date a = .ok s → validate_date b = .ok e →
      (dtLt e s →
        validate_date_range a b = .error "Start date must be before end date") ∧
      (¬dtLt e s → 1825 < timedeltaDays s e →
        validate_date_range a b = .error "Date range cannot exceed 1825 days.") ∧
      (¬dtLt e s → timedeltaDays s e ≤ 1825 →
        validate_date_range a b = .ok (s, e))) := by
  refine ⟨by decide, fun a b msg h => ?_, fun a b s e ha hb => ?_⟩
  · simp only [validate_date_range, h]
  · refine ⟨fun hlt => ?_, fun hge hspan => ?_, fun hge hspan => ?_⟩
    · simp only [validate_date_range, ha, hb, if_pos hlt]
    · simp only [validate_date_range, ha, hb, if_neg hge]
      rw [if_pos (by omega)]
    · simp only [validate_date_range, ha, hb, if_neg hge]
      rw [if_neg (by omega)]

/-- C9 witness: the date-range checks at concrete parsed strings - a span
of exactly 1825 days succeeds, a span of 1826 days fails - discharging the
parsing and comparison hypotheses. -/
theorem c9_validate_date_range_witness :
    validate_date (.str "2019-01-01") = .ok ⟨2019, 1, 1, 0, 0, 0, 0⟩ ∧
    validate_date (.str "2023-12-31") = .ok ⟨2023, 12, 31, 0, 0, 0, 0⟩ ∧
    timedeltaDays ⟨2019, 1, 1, 0, 0, 0, 0⟩ ⟨2023, 12, 31, 0, 0, 0, 0⟩ = 1825 ∧
    validate_date_range (.str "2019-01-01") (.str "2023-12-31") =
      .ok (⟨2019, 1, 1, 0, 0, 0, 0⟩, ⟨2023, 12, 31, 0, 0, 0, 0⟩) ∧
    timedeltaDays ⟨2019, 1, 1, 0, 0, 0, 0⟩ ⟨2024, 1, 1, 0, 0, 0, 0⟩ = 1826 ∧
    validate_date_range (.str "2019-01-01") (.str "2024-01-01") =
      .error "Date range cannot exceed 1825 days." ∧
    validate_date_range (.str "invalid") (.str "2024-01-01") =
      .error "Invalid date format" :=
  ⟨by decide, by decide, by decide,
    (c9_validate_date_range.2.2 (.str "2019-01-01") (.str "2023-12-31")
      ⟨2019, 1, 1, 0, 0, 0, 0⟩ ⟨2023, 12, 31, 0, 0, 0, 0⟩
      (by decide) (by decide)).2.2 (by decide) (by decide),
    by decide,
    (c9_validate_date_range.2.2 (.str "2019-01-01") (.str "2024-01-01")
      ⟨2019, 1, 1, 0, 0, 0, 0⟩ ⟨2024, 1, 1, 0, 0, 0, 0⟩
      (by decide) (by decide)).2.1 (by decide) (by decide),
    c9_validate_date_range.2.1 (.str "invalid") (.str "2024-01-01")
      "Invalid date format" (by decide)⟩

/-- C6: aggregating a bar list to the 1d interval and re-aggregating the
output to 1d yields the same output (idempotence), and every output bar
aggregates its non-empty constituent bucket with open = first bar, high =
max of highs, low = min of lows, close = last bar, volume = sum of
volumes. -/
theorem c6_aggregation_idem_ohlcv :
    (∀ data : List Bar,
      aggregate_data (aggregate_data data "1d") "1d" = aggregate_data data "1d") ∧
    (∀ data : List Bar, ∀ b ∈ aggregate_data data "1d",
      ∃ q qs, bucketOf data (interval_minutes "1d") b.timestamp = q :: qs ∧
        b.open_ = q.open_ ∧
        b.high = maxList q.high (qs.map (fun p => p.high)) ∧
        b.low = minList q.low (qs.map (fun p => p.low)) ∧
        b.close = (qs.getLastD q).close ∧
        b.volume = sumList ((q :: qs).map (fun p => p.volume))) := by
  refine ⟨fun data => aggregate_data_idem data "1d", fun data b hb => ?_⟩
  obtain ⟨q, qs, hbucket, hb⟩ := aggregate_data_mem hb
  exact ⟨q, qs, hbucket, by rw [hb]; rfl, by rw [hb]; rfl, by rw [hb]; rfl,
    by rw [hb]; rfl, by rw [hb]; rfl⟩

/-- C6 witness: the OHLCV bucket facts at a concrete two-bar list whose
bars share one bucket, discharging the membership hypothesis. -/
theorem c6_aggregation_witness :
    aggregate_data (aggregate_data [bar1, bar2] "1d") "1d" =
      aggregate_data [bar1, bar2] "1d" ∧
    (∃ q qs,
      bucketOf [bar1, bar2] (interval_minutes "1d")
        (aggPoint ⟨2024, 1, 1, 10, 0, 0, 0⟩ bar1 [bar2]).timestamp = q :: qs ∧
      (aggPoint ⟨2024, 1, 1, 10, 0, 0, 0⟩ bar1 [bar2]).open_ = q.open_ ∧
      (aggPoint ⟨2024, 1, 1, 10, 0, 0, 0⟩ bar1 [bar2]).high =
        maxList q.high (qs.map (fun p => p.high)) ∧
      (aggPoint ⟨2024, 1, 1, 10, 0, 0, 0⟩ bar1 [bar2]).low =
        minList q.low (qs.map (fun p => p.low)) ∧
      (aggPoint ⟨2024, 1, 1, 10, 0, 0, 0⟩ bar1 [bar2]).close =
        (qs.getLastD q).close ∧
      (aggPoint ⟨2024, 1, 1, 10, 0, 0, 0⟩ bar1 [bar2]).volume =
        sumList ((q :: qs).map (fun p => p.volume))) :=
  ⟨c6_aggregation_idem_ohlcv.1 [bar1, bar2],
    c6_aggregation_idem_ohlcv.2 [bar1, bar2]
      (aggPoint ⟨2024, 1, 1, 10, 0, 0, 0⟩ bar1 [bar2])
      (by rw [show aggregate_data [bar1, bar2] "1d" =
            [aggPoint ⟨2024, 1, 1, 10, 0, 0, 0⟩ bar1 [bar2]] from rfl]
          exact List.mem_singleton.mpr rfl)⟩

/-- C5 witness: the amended error-recording facts at a concrete two-source
list (a raiser then an empty source), discharging each hypothesis. -/
theorem c5_error_recording_witness :
    (get_quote true none c5sources).2.2.1.getD 0 srcRaiser =
      (if attemptedAt c5sources 0 ∧ (c5sources.getD 0 srcRaiser).quote = .raises
        then record_error (c5sources.getD 0 srcRaiser)
        else c5sources.getD 0 srcRaiser) ∧
    ((get_quote true none c5sources).1 = none ↔
      ∀ s ∈ get_healthy_sources c5sources, isQuoteSuccess s = false) ∧
    (get_quote true none c5sources).2.2.2 =
      (get_healthy_sources c5sources).map (fun s => s.name) :=
  ⟨c5_error_recording.1 c5sources 0 srcRaiser (by decide),
    c5_error_recording.2.1 c5sources,
    c5_error_recording.2.2 c5sources (by decide)⟩

/-- C7 counterexample: at T = 0 with second-order Greeks requested, the
second-order fields are left unset (None), not 0 - here vanna of the
110/100 call. -/
theorem c7_second_order_none_counterexample :
    ¬((calculate_greeks c7call true "analytical").map (fun g => g.vanna) =
      .ok (some 0)) := by
  rw [calculate_greeks_expiry (by norm_num [c7call]) (by norm_num [c7call])
    (by norm_num [c7call]) (by norm_num [c7call]) (Or.inl rfl)]
  simp [calculate_expiry_greeks, c7call, Except.map]

/-- C7 (amended): at T = 0 the calculator returns intrinsic values - for
the 110/100 call price 10 and delta 1, for the matching put price 0 and
delta 0 - and with second-order Greeks requested every second-order field
(vanna, charm, vomma, veta, speed, zomma, color, ultima, dual delta, dual
gamma) is left None rather than set to 0. -/
theorem c7_expiry_greeks :
    calculate_greeks c7call true "analytical" =
      .ok { price := 10, delta := 1, gamma := 0, theta := 0, vega := 0,
            rho := 0, vanna := Option.none, charm := Option.none,
            vomma := Option.none, veta := Option.none,
            speed := Option.none, zomma := Option.none,
            color := Option.none, ultima := Option.none,
            lambda_ := some 0, dual_delta := Option.none,
            dual_gamma := Option.none } ∧
    calculate_greeks c7put true "analytical" =
      .ok { price := 0, delta := 0, gamma := 0, theta := 0, vega := 0,
            rho := 0, vanna := Option.none, charm := Option.none,
            vomma := Option.none, veta := Option.none,
            speed := Option.none, zomma := Option.none,
            color := Option.none, ultima := Option.none,
            lambda_ := some 0, dual_delta := Option.none,
            dual_gamma := Option.none } := by
  constructor
  · rw [calculate_greeks_expiry (by norm_num [c7call]) (by norm_num [c7call])
      (by norm_num [c7call]) (by norm_num [c7call]) (Or.inl rfl)]
    norm_num [calculate_expiry_greeks, c7call, max_def]
  · rw [calculate_greeks_expiry (by norm_num [c7put]) (by norm_num [c7put])
      (by norm_num [c7put]) (by norm_num [c7put]) (Or.inr rfl)]
    norm_num [calculate_expiry_greeks, c7put, max_def]
    decide

/-- C10 counterexample: with the caller having preset volatility 5.0 and a
target the bracket cannot straddle, the Brent path reassigns 0.001 and
then 5.0 to the volatility field, so the params object comes back equal to
what the caller passed - the call CAN leave its argument unchanged. -/
theorem c10_brent_unchanged_counterexample :
    (calculate_implied_volatility (-1) c10params "brent" 100
        (1 / 1000000) []).1 = c10params := by
  have hred : calculate_implied_volatility (-1) c10params "brent" 100
      (1 / 1000000) [] = iv_brent (-1) (1 / 1000000) c10params [] := by
    simp [calculate_implied_volatility]
  rw [hred]
  have hcollapse :
      ({ { c10params with volatility := (0.001 : ℝ) } with
          volatility := (5.0 : ℝ) } : OptionParameters) =
        { c10params with volatility := (5.0 : ℝ) } := rfl
  have hgen : ∀ v : ℝ, v ≠ 0 →
      (1 : ℝ) / 2 ≤
        black_scholes_price { c10params with volatility := v } - (-1) := by
    intro v hv
    have hT : ({ c10params with volatility := v } :
        OptionParameters).time_to_expiry ≠ 0 := by norm_num [c10params]
    have hbs := black_scholes_call_main hT hv rfl
    rw [hbs]
    have h1 := normCdf_nonneg (d1 { c10params with volatility := v })
    have h2 := normCdf_le_one (d2 { c10params with volatility := v })
    rw [show ({ c10params with volatility := v } :
          OptionParameters).spot_price = 1 from rfl,
      show ({ c10params with volatility := v } :
          OptionParameters).strike_price = 0.5 from rfl,
      show ({ c10params with volatility := v } :
          OptionParameters).time_to_expiry = 1 from rfl,
      show ({ c10params with volatility := v } :
          OptionParameters).risk_free_rate = 0 from rfl,
      show ({ c10params with volatility := v } :
          OptionParameters).dividend_yield = 0 from rfl,
      show (-(0:ℝ) * 1) = 0 by ring, Real.exp_zero]
    nlinarith [h1, h2]
  have hlow := hgen 0.001 (by norm_num)
  have hhigh := hgen 5.0 (by norm_num)
  have hpos : (black_scholes_price
        { c10params with volatility := (0.001 : ℝ) } - (-1)) *
      (black_scholes_price { { c10params with volatility := (0.001 : ℝ) }
          with volatility := (5.0 : ℝ) } - (-1)) > 0 := by
    rw [hcollapse]
    nlinarith [hlow, hhigh]
  simp only [iv_brent]
  rw [if_pos hpos]
  rfl

/-- C10 (amended): under both methods the solver assigns every trial
volatility to the params argument in turn, so after the call the
volatility field holds the last trial value - which may or may not
coincide with what the caller set - and every other field is unchanged. -/
theorem c10_iv_mutates_params :
    ∀ (p : OptionParameters) (option_price : ℝ) (max_iterations : Nat)
      (tolerance : ℝ) (trials : List ℝ) (method : String),
      method = "newton" ∨ method = "brent" →
      (calculate_implied_volatility option_price p method max_iterations
          tolerance trials).2.1 ≠ [] ∧
      (calculate_implied_volatility option_price p method max_iterations
          tolerance trials).1 =
        { p with volatility :=
            (calculate_implied_volatility option_price p method
                max_iterations tolerance trials).2.1.getLastD 0 } := by
  intro p option_price max_iterations tolerance trials method hm
  rcases hm with hm | hm
  · subst hm
    rcases hl : iv_newton_loop option_price tolerance max_iterations
        (max (Real.sqrt (2 * Real.pi / p.time_to_expiry) * option_price /
          p.spot_price) 0.1) p [] with ⟨p', tr, r⟩
    have hframe := iv_newton_loop_frame option_price tolerance
      max_iterations
      (max (Real.sqrt (2 * Real.pi / p.time_to_expiry) * option_price /
        p.spot_price) 0.1) p []
    rw [hl] at hframe
    simp only [List.nil_append] at hframe
    cases r with
    | some res =>
        have htrace : (calculate_implied_volatility option_price p "newton"
            max_iterations tolerance trials).2.1 = tr := by
          simp [calculate_implied_volatility, hl]
        have hparams : (calculate_implied_volatility option_price p "newton"
            max_iterations tolerance trials).1 = p' := by
          simp [calculate_implied_volatility, hl]
        rw [htrace, hparams]
        rcases hframe with ⟨hp', htr, hcon⟩ | ⟨δ, hδ, htr, hp'⟩
        · exact absurd hcon (by simp)
        · subst htr
          exact ⟨hδ, hp'⟩
    | none =>
        obtain ⟨hbne, hbp⟩ := iv_brent_frame option_price tolerance p' trials
        have htrace : (calculate_implied_volatility option_price p "newton"
            max_iterations tolerance trials).2.1 =
            tr ++ (iv_brent option_price tolerance p' trials).2.1 := by
          simp [calculate_implied_volatility, hl]
        have hparams : (calculate_implied_volatility option_price p "newton"
            max_iterations tolerance trials).1 =
            (iv_brent option_price tolerance p' trials).1 := by
          simp [calculate_implied_volatility, hl]
        rw [htrace, hparams]
        rcases hframe with ⟨hp', htr, _⟩ | ⟨δ, hδ, htr, hp'⟩
        · subst hp'
          subst htr
          refine ⟨by simpa using hbne, ?_⟩
          rw [List.nil_append]
          exact hbp
        · subst htr
          subst hp'
          refine ⟨?_, ?_⟩
          · intro hcon
            exact hbne (List.append_eq_nil.mp hcon).2
          · rw [getLastD_append_right _ _ hbne]
            exact hbp
  · subst hm
    have hb : calculate_implied_volatility option_price p "brent"
        max_iterations tolerance trials =
        iv_brent option_price tolerance p trials := by
      simp [calculate_implied_volatility]
    rw [hb]
    exact iv_brent_frame option_price tolerance p trials

/-- C10 witness: the mutation facts at a concrete Brent call. -/
theorem c10_iv_mutates_params_witness :
    ("brent" = "newton" ∨ "brent" = "brent") ∧
    ((calculate_implied_volatility 1 c7call "brent" 3 (1 / 1000)
        []).2.1 ≠ [] ∧
      (calculate_implied_volatility 1 c7call "brent" 3 (1 / 1000) []).1 =
        { c7call with volatility :=
            (calculate_implied_volatility 1 c7call "brent" 3 (1 / 1000)
                []).2.1.getLastD 0 }) :=
  ⟨Or.inr rfl,
    c10_iv_mutates_params c7call 1 3 (1 / 1000) [] "brent" (Or.inr rfl)⟩

/-- C2: the claim fails on the code - the finite-difference path does NOT
reproduce the analytical path within finite-difference error.  At the
at-the-money one-year call the numerical vega (a 0.001 volatility bump,
further divided by 100) is below 0.001 while the analytical vega exceeds
0.35: a factor of roughly 1000, far outside any finite-difference error
of the claimed step sizes.  (Theta carries an extra /365 and rho a 0.0001
bump over /100 in the same way.) -/
theorem c2_numerical_vega_divergence :
    (calculate_numerical_greeks c2params).vega < 1 / 1000 ∧
    7 / 20 < (calculate_analytical_greeks c2params).vega := by
  have hsqrt_lb : (5 / 2 : ℝ) ≤ Real.sqrt (2 * Real.pi) := by
    have h : ((5 : ℝ) / 2) = Real.sqrt ((5 / 2) ^ 2) :=
      (Real.sqrt_sq (by norm_num)).symm
    rw [h]
    exact Real.sqrt_le_sqrt (by nlinarith [Real.pi_gt_314])
  have hsqrt_ub : Real.sqrt (2 * Real.pi) ≤ (2.51 : ℝ) := by
    have h : (2.51 : ℝ) = Real.sqrt (2.51 ^ 2) :=
      (Real.sqrt_sq (by norm_num)).symm
    rw [h]
    exact Real.sqrt_le_sqrt (by nlinarith [Real.pi_lt_315])
  have hsqrt_pos : (0 : ℝ) < Real.sqrt (2 * Real.pi) :=
    lt_of_lt_of_le (by norm_num) hsqrt_lb
  have hinv_ub : (Real.sqrt (2 * Real.pi))⁻¹ ≤ 2 / 5 := by
    rw [show (2 / 5 : ℝ) = ((5 : ℝ) / 2)⁻¹ by norm_num]
    exact inv_le_inv_of_le (by norm_num) hsqrt_lb
  have hinv_lb : (2.51 : ℝ)⁻¹ ≤ (Real.sqrt (2 * Real.pi))⁻¹ :=
    inv_le_inv_of_le hsqrt_pos hsqrt_ub
  constructor
  · rw [numerical_vega, bs_c2_up, bs_c2_base]
    have hA := normCdf_sub_le (show (0.1 : ℝ) ≤ 0.1005 by norm_num)
    have hB := normCdf_sub_le (show (-0.1005 : ℝ) ≤ -0.1 by norm_num)
    have hA0 : normCdf 0.1 ≤ normCdf 0.1005 := normCdf_mono (by norm_num)
    have hB0 : normCdf (-0.1005) ≤ normCdf (-0.1) :=
      normCdf_mono (by norm_num)
    have h1 : normCdf 0.1005 - normCdf 0.1 ≤ 0.0005 * (2 / 5) := by
      calc normCdf 0.1005 - normCdf 0.1
          ≤ (0.1005 - 0.1) * (Real.sqrt (2 * Real.pi))⁻¹ := hA
        _ ≤ 0.0005 * (2 / 5) := by
            rw [show (0.1005 - 0.1 : ℝ) = 0.0005 by norm_num]
            exact mul_le_mul_of_nonneg_left hinv_ub (by norm_num)
    have h2 : normCdf (-0.1) - normCdf (-0.1005) ≤ 0.0005 * (2 / 5) := by
      calc normCdf (-0.1) - normCdf (-0.1005)
          ≤ (-0.1 - -0.1005) * (Real.sqrt (2 * Real.pi))⁻¹ := hB
        _ ≤ 0.0005 * (2 / 5) := by
            rw [show (-0.1 - -0.1005 : ℝ) = 0.0005 by norm_num]
            exact mul_le_mul_of_nonneg_left hinv_ub (by norm_num)
    set x := (100 * normCdf 0.1005 - 100 * normCdf (-0.1005) -
      (100 * normCdf 0.1 - 100 * normCdf (-0.1))) / 100 with hx
    have hxub : x ≤ 0.0004 := by
      rw [hx]
      rw [div_le_iff (show (0:ℝ) < 100 by norm_num)]
      linarith
    have hr := round6_abs_le x
    have hup := (abs_le.mp hr).2
    linarith
  · have hT : c2params.time_to_expiry ≠ 0 := by norm_num [c2params]
    have hv : c2params.volatility ≠ 0 := by norm_num [c2params]
    rw [analytical_vega hT hv, d1_c2]
    have harg : c2params.spot_price * normPdf (0.1 : ℝ) *
        Real.sqrt c2params.time_to_expiry *
        Real.exp (-c2params.dividend_yield * c2params.time_to_expiry) /
          100 = normPdf 0.1 := by
      rw [show c2params.spot_price = (100 : ℝ) from rfl,
        show c2params.time_to_expiry = (1 : ℝ) from rfl,
        show c2params.dividend_yield = (0 : ℝ) from rfl,
        Real.sqrt_one, show (-(0 : ℝ) * 1) = 0 by ring, Real.exp_zero]
      ring
    rw [harg]
    have hpdf_lb : (0.39 : ℝ) ≤ normPdf 0.1 := by
      unfold normPdf
      have hexp : (0.995 : ℝ) ≤ Real.exp (-(0.1 ^ 2) / 2) := by
        have h := Real.add_one_le_exp (-(0.1 ^ 2) / 2 : ℝ)
        have h2 : (-(0.1 ^ 2) / 2 : ℝ) + 1 = 0.995 := by norm_num
        linarith
      have hinv_pos : (0 : ℝ) < (Real.sqrt (2 * Real.pi))⁻¹ :=
        inv_pos.mpr hsqrt_pos
      calc (0.39 : ℝ) ≤ (2.51 : ℝ)⁻¹ * 0.995 := by norm_num
        _ ≤ (Real.sqrt (2 * Real.pi))⁻¹ * Real.exp (-(0.1 ^ 2) / 2) :=
            mul_le_mul hinv_lb hexp (by norm_num) (le_of_lt hinv_pos)
    have hr := round6_abs_le (normPdf 0.1)
    have hlo := (abs_le.mp hr).1
    linarith

end FindRain
